import Mathlib

/-!
# The external scanner of tree-sitter-julia (`src/scanner.c`)

A shallow embedding of the scanner's three functions (`string_delim`,
`string_content`, `tree_sitter_julia_external_scanner_scan`) over an explicit
model of the character cursor, followed by theorems about them.

Characters are code points (`Nat`): `'"'` is 34, `'#'` 35, `'$'` 36, `'('` 40,
`'='` 61, the backslash 92 and the end-of-input value 0.
Every `while`/`for` loop of the source is a function that takes a step budget
(`fuel`), spends one unit per iteration and answers `none` when the budget is
exhausted; the theorems state how much budget is enough.
-/

namespace JuliaScanner

/-- The `enum TokenType` of `scanner.c`, in declaration order. -/
inductive TokenType where
  | BLOCK_COMMENT
  | IMMEDIATE_PAREN
  | STRING_DELIM
  | TRIPLE_STRING_DELIM
  | STRING_CONTENT
  | STRING_CONTENT_NO_INTERPOLATION
  | TRIPLE_STRING_CONTENT
  | TRIPLE_STRING_CONTENT_NO_INTERPOLATION
  deriving DecidableEq, Repr

open TokenType

/-- Modelled from the spec: the character cursor (`TSLexer`) that the host
parser supplies (section 6: lookahead-one, advance with a skip flag, mark-end,
and the result kind). `input` holds the characters not yet advanced over,
`pos` counts the characters advanced over, `token_start` is where the token
begins (a skipping advance moves it), `mark` is the position of the last
mark-end call and `mark_calls` counts those calls. -/
structure TSLexer where
  input : List Nat
  pos : Nat
  token_start : Nat
  mark : Option Nat
  mark_calls : Nat
  result_symbol : TokenType
  deriving DecidableEq, Repr

namespace TSLexer

/-- The field `lexer->lookahead`: the next character, 0 at end of input. -/
def lookahead (lexer : TSLexer) : Nat := lexer.input.headD 0

/-- The call `lexer->advance(lexer, skip)`: steps over one character; a skipping
advance moves the token start along. At end of input it has no effect. -/
def advance (lexer : TSLexer) (skip : Bool) : TSLexer :=
  match lexer.input with
  | [] => lexer
  | _ :: rest =>
    { lexer with
      input := rest
      pos := lexer.pos + 1
      token_start := if skip then lexer.pos + 1 else lexer.token_start }

/-- The call `lexer->mark_end(lexer)`: the token ends at the current position. -/
def mark_end (lexer : TSLexer) : TSLexer :=
  { lexer with mark := some lexer.pos, mark_calls := lexer.mark_calls + 1 }

/-- Where the token ends for the host: the last marked end, or the cursor when
mark-end was never called. -/
def token_end (lexer : TSLexer) : Nat := lexer.mark.getD lexer.pos

end TSLexer

/-- One more than the largest value of the C type `unsigned` (32 bits). -/
def UINT_RANGE : Nat := 2 ^ 32

/-- The loop `while (quote_count < 3 && lexer->lookahead == '"')` that occurs
three times in the source (lines 60, 95, 124); returns the cursor and the count. -/
def quote_loop : Nat → TSLexer → Nat → Option (TSLexer × Nat)
  | 0, _, _ => none
  | fuel + 1, lexer, quote_count =>
    if quote_count < 3 ∧ lexer.lookahead = 34 then
      quote_loop fuel (lexer.advance false) (quote_count + 1)
    else
      some (lexer, quote_count)

/-- The function `string_delim` (lines 48-78). -/
def string_delim (fuel : Nat) (lexer : TSLexer) (valid_symbols : TokenType → Bool) :
    Option (Bool × TSLexer) :=
  if lexer.lookahead ≠ 34 then
    some (false, lexer)
  else
    let lexer := lexer.advance false
    let lexer := lexer.mark_end
    match quote_loop fuel lexer 1 with
    | none => none
    | some (lexer, quote_count) =>
      if quote_count < 3 then
        if !valid_symbols STRING_DELIM then
          some (false, lexer)
        else
          some (true, { lexer with result_symbol := STRING_DELIM })
      else if !valid_symbols TRIPLE_STRING_DELIM then
        some (false, lexer)
      else
        let lexer := lexer.mark_end
        some (true, { lexer with result_symbol := TRIPLE_STRING_DELIM })

/-- The value written at lines 147-149 and 157-159 of `string_content`. -/
def content_symbol (triple_string interpolate : Bool) : TokenType :=
  if triple_string then
    (if interpolate then TRIPLE_STRING_CONTENT else TRIPLE_STRING_CONTENT_NO_INTERPOLATION)
  else
    (if interpolate then STRING_CONTENT else STRING_CONTENT_NO_INTERPOLATION)

/-- The loop `while (true) { switch (lexer->lookahead) ... }` of `string_content`
(lines 113-164). -/
def string_content_loop (triple_string interpolate : Bool) :
    Nat → TSLexer → Option (Bool × TSLexer)
  | 0, _ => none
  | fuel + 1, lexer =>
    if lexer.lookahead = 34 then
      if !triple_string then
        some (true, { lexer with result_symbol :=
          if interpolate then STRING_CONTENT else STRING_CONTENT_NO_INTERPOLATION })
      else
        let lexer := lexer.mark_end
        match quote_loop fuel lexer 0 with
        | none => none
        | some (lexer, quote_count) =>
          if quote_count = 3 then
            some (true, { lexer with result_symbol :=
              if interpolate then TRIPLE_STRING_CONTENT
              else TRIPLE_STRING_CONTENT_NO_INTERPOLATION })
          else
            string_content_loop triple_string interpolate fuel lexer
    else if lexer.lookahead = 36 then
      if !interpolate then
        string_content_loop triple_string interpolate fuel (lexer.advance false)
      else
        let lexer := lexer.mark_end
        some (true, { lexer with result_symbol :=
          if triple_string then TRIPLE_STRING_CONTENT else STRING_CONTENT })
    else if lexer.lookahead = 92 then
      let lexer := lexer.advance false
      if lexer.lookahead = 0 then
        let lexer := lexer.mark_end
        some (true, { lexer with result_symbol := content_symbol triple_string interpolate })
      else
        string_content_loop triple_string interpolate fuel (lexer.advance false)
    else if lexer.lookahead = 0 then
      let lexer := lexer.mark_end
      some (true, { lexer with result_symbol := content_symbol triple_string interpolate })
    else
      string_content_loop triple_string interpolate fuel (lexer.advance false)

/-- The function `string_content` (lines 80-167). -/
def string_content (fuel : Nat) (lexer : TSLexer) (valid_symbols : TokenType → Bool) :
    Option (Bool × TSLexer) :=
  let triple_string := valid_symbols TRIPLE_STRING_CONTENT ||
    valid_symbols TRIPLE_STRING_CONTENT_NO_INTERPOLATION
  let interpolate := valid_symbols STRING_CONTENT ||
    valid_symbols TRIPLE_STRING_CONTENT
  let body (lexer : TSLexer) : Option (Bool × TSLexer) :=
    if interpolate ∧ lexer.lookahead = 36 then
      some (false, lexer)
    else
      string_content_loop triple_string interpolate fuel lexer
  if lexer.lookahead = 34 then
    if valid_symbols STRING_DELIM || valid_symbols TRIPLE_STRING_DELIM then
      string_delim fuel lexer valid_symbols
    else if !triple_string then
      some (false, lexer)
    else
      let lexer := lexer.mark_end
      match quote_loop fuel lexer 0 with
      | none => none
      | some (lexer, quote_count) =>
        if quote_count = 3 then
          some (false, lexer)
        else
          body lexer
  else
    body lexer

/-- The loop `while (iswspace(lexer->lookahead)) lexer->advance(lexer, true)`
(lines 189-191). `iswspace` is the C library's classifier, taken as a parameter. -/
def whitespace_loop (iswspace : Nat → Bool) : Nat → TSLexer → Option TSLexer
  | 0, _ => none
  | fuel + 1, lexer =>
    if iswspace lexer.lookahead then
      whitespace_loop iswspace fuel (lexer.advance true)
    else
      some lexer

/-- The loop `for (;;) { switch (lexer->lookahead) ... }` of the block comment
(lines 202-233). `nesting_depth` is a C `unsigned`: it wraps at `UINT_RANGE`. -/
def block_comment_loop : Nat → TSLexer → Bool → Nat → Option (Bool × TSLexer)
  | 0, _, _, _ => none
  | fuel + 1, lexer, after_eq, nesting_depth =>
    if lexer.lookahead = 0 then
      some (false, lexer)
    else if lexer.lookahead = 61 then
      block_comment_loop fuel (lexer.advance false) true nesting_depth
    else if lexer.lookahead = 35 then
      if after_eq then
        let lexer := lexer.advance false
        let nesting_depth := (nesting_depth + UINT_RANGE - 1) % UINT_RANGE
        if nesting_depth = 0 then
          some (true, { lexer with result_symbol := BLOCK_COMMENT })
        else
          block_comment_loop fuel lexer false nesting_depth
      else
        let lexer := lexer.advance false
        if lexer.lookahead = 61 then
          block_comment_loop fuel (lexer.advance false) false
            ((nesting_depth + 1) % UINT_RANGE)
        else
          block_comment_loop fuel lexer false nesting_depth
    else
      block_comment_loop fuel (lexer.advance false) false nesting_depth

/-- The function `tree_sitter_julia_external_scanner_scan` (lines 169-237); the
unused `payload` is left out. The answer is the returned flag and the cursor as
the call leaves it. -/
def tree_sitter_julia_external_scanner_scan (iswspace : Nat → Bool) (fuel : Nat)
    (lexer : TSLexer) (valid_symbols : TokenType → Bool) : Option (Bool × TSLexer) :=
  if lexer.lookahead = 40 ∧ valid_symbols IMMEDIATE_PAREN then
    some (true, { lexer with result_symbol := IMMEDIATE_PAREN })
  else if valid_symbols STRING_CONTENT || valid_symbols STRING_CONTENT_NO_INTERPOLATION ||
      valid_symbols TRIPLE_STRING_CONTENT ||
      valid_symbols TRIPLE_STRING_CONTENT_NO_INTERPOLATION then
    string_content fuel lexer valid_symbols
  else
    match whitespace_loop iswspace fuel lexer with
    | none => none
    | some lexer =>
      if lexer.lookahead = 35 then
        let lexer := lexer.advance false
        if lexer.lookahead ≠ 61 then
          some (false, lexer)
        else
          let lexer := lexer.advance false
          block_comment_loop fuel lexer false 1
      else
        string_delim fuel lexer valid_symbols

/-- The classifier `iswspace` in the "C" locale: space, tab, line feed, vertical
tab, form feed and carriage return. -/
def iswspace_C (c : Nat) : Bool := c = 32 || (9 ≤ c && c ≤ 13)

/-- A hint set given by the list of kinds that are valid. -/
def hints (kinds : List TokenType) : TokenType → Bool := fun k => decide (k ∈ kinds)

/-- The cursor as the host hands it over at position 0 of a text: nothing marked,
the token starting at the cursor. -/
def start (text : List Nat) : TSLexer :=
  { input := text, pos := 0, token_start := 0, mark := none, mark_calls := 0,
    result_symbol := BLOCK_COMMENT }

/-- The number of `'"'` characters at the head of `input`, counted up to `cap`. -/
def quote_run (cap : Nat) (input : List Nat) : Nat :=
  min cap (input.takeWhile (fun c => c == 34)).length

/-- The cursor after `k` plain (non-skipping) advances over existing characters. -/
def advanced (lexer : TSLexer) (k : Nat) : TSLexer :=
  { lexer with input := lexer.input.drop k, pos := lexer.pos + k }


/-- A character that the content loop steps over through its `default` case (or,
without interpolation, through the `'$'` case): not `'"'`, not the backslash, not
the end-of-input value, and not `'$'` when interpolation is on. -/
def plain_char (interpolate : Bool) (c : Nat) : Prop :=
  c ≠ 34 ∧ c ≠ 92 ∧ c ≠ 0 ∧ (interpolate = true → c ≠ 36)

/-- A unit of string content: an ordinary character, or a backslash together with
the character after it. -/
inductive Piece where
  | ordinary (c : Nat)
  | escape (c : Nat)
  deriving DecidableEq, Repr

/-- The characters of a piece. -/
def Piece.chars : Piece → List Nat
  | .ordinary c => [c]
  | .escape c => [92, c]

/-- The side condition on a piece: an ordinary character is none of `'"'`, `'$'`,
backslash, NUL; an escaped character is not NUL. -/
def Piece.ok : Piece → Prop
  | .ordinary c => c ≠ 34 ∧ c ≠ 36 ∧ c ≠ 92 ∧ c ≠ 0
  | .escape c => c ≠ 0

instance (x : Piece) : Decidable x.ok := by
  cases x <;> unfold Piece.ok <;> infer_instance

/-- The text spelled by a list of pieces. -/
def render : List Piece → List Nat
  | [] => []
  | x :: xs => x.chars ++ render xs

/-- The text `#= f1 #= f2 ... #= fn` for the fillers `f1 .. fn`. -/
def openers : List (List Nat) → List Nat
  | [] => []
  | f :: fs => 35 :: 61 :: (f ++ openers fs)

/-- The text `=# g1 =# g2 ... =# gk` for the fillers `g1 .. gk`. -/
def closers : List (List Nat) → List Nat
  | [] => []
  | g :: gs => 61 :: 35 :: (g ++ closers gs)

/-- A filler text of a block comment: no `'#'`, no `'='`, no NUL. -/
def filler (f : List Nat) : Prop := ∀ c ∈ f, c ≠ 35 ∧ c ≠ 61 ∧ c ≠ 0

instance (f : List Nat) : Decidable (filler f) := by
  unfold filler; infer_instance

/-- The cursor `lexer'` is `lexer` moved forward over characters of its input: the
position has not decreased, and position plus unread characters is unchanged. -/
def Forward (lexer lexer' : TSLexer) : Prop :=
  lexer.pos ≤ lexer'.pos ∧
  lexer'.pos + lexer'.input.length = lexer.pos + lexer.input.length
/-! ## Elementary facts about the cursor -/

@[simp] theorem lookahead_cons (c : Nat) (rest : List Nat) (p t : Nat) (m : Option Nat)
    (n : Nat) (s : TokenType) :
    (TSLexer.mk (c :: rest) p t m n s).lookahead = c := rfl

@[simp] theorem lookahead_nil (p t : Nat) (m : Option Nat) (n : Nat) (s : TokenType) :
    (TSLexer.mk [] p t m n s).lookahead = 0 := rfl

@[simp] theorem advance_cons (c : Nat) (rest : List Nat) (p t : Nat) (m : Option Nat)
    (n : Nat) (s : TokenType) :
    (TSLexer.mk (c :: rest) p t m n s).advance false = TSLexer.mk rest (p + 1) t m n s := rfl

@[simp] theorem advance_skip_cons (c : Nat) (rest : List Nat) (p t : Nat) (m : Option Nat)
    (n : Nat) (s : TokenType) :
    (TSLexer.mk (c :: rest) p t m n s).advance true =
      TSLexer.mk rest (p + 1) (p + 1) m n s := rfl

@[simp] theorem advance_nil (p t : Nat) (m : Option Nat) (n : Nat) (s : TokenType) (b : Bool) :
    (TSLexer.mk [] p t m n s).advance b = TSLexer.mk [] p t m n s := rfl

@[simp] theorem mark_end_mk (i : List Nat) (p t : Nat) (m : Option Nat) (n : Nat)
    (s : TokenType) :
    (TSLexer.mk i p t m n s).mark_end = TSLexer.mk i p t (some p) (n + 1) s := rfl

theorem quote_run_nil (cap : Nat) : quote_run cap [] = 0 := by
  simp [quote_run]

theorem quote_run_zero (input : List Nat) : quote_run 0 input = 0 := by
  simp [quote_run]

theorem quote_run_cons_quote (cap : Nat) (rest : List Nat) :
    quote_run (cap + 1) (34 :: rest) = quote_run cap rest + 1 := by
  simp only [quote_run, List.takeWhile_cons, beq_self_eq_true, if_true, List.length_cons]
  omega

theorem quote_run_cons_other (cap c : Nat) (rest : List Nat) (h : c ≠ 34) :
    quote_run cap (c :: rest) = 0 := by
  simp [quote_run, List.takeWhile_cons, h]

/-- The quote-counting loop, started with `quote_count ≤ 3` and more than
`3 - quote_count` units of budget, advances over the quotes at the cursor up to
a total count of three and returns the new count. -/
theorem quote_loop_eq (fuel : Nat) (lexer : TSLexer) (quote_count : Nat)
    (hq : quote_count ≤ 3) (hfuel : 3 - quote_count < fuel) :
    quote_loop fuel lexer quote_count =
      some (advanced lexer (quote_run (3 - quote_count) lexer.input),
        quote_count + quote_run (3 - quote_count) lexer.input) := by
  induction fuel generalizing lexer quote_count with
  | zero => omega
  | succ fuel ih =>
    obtain ⟨input, p, t, m, n, s⟩ := lexer
    unfold quote_loop
    by_cases h3 : quote_count < 3
    · cases input with
      | nil => simp [quote_run_nil, advanced]
      | cons c rest =>
        by_cases hc : c = 34
        · subst hc
          have hcap : 3 - quote_count = (3 - (quote_count + 1)) + 1 := by omega
          simp only [h3, lookahead_cons, and_self, if_true, advance_cons]
          rw [ih _ _ (by omega) (by omega)]
          conv_rhs => rw [hcap, quote_run_cons_quote]
          simp [advanced]
          omega
        · simp [h3, hc, quote_run_cons_other, advanced]
    · have : quote_count = 3 := by omega
      subst this
      simp [quote_run_zero, advanced]

/-! ## The kinds each part can emit -/

theorem string_delim_emits_valid (fuel : Nat) (lexer lexer' : TSLexer)
    (valid_symbols : TokenType → Bool)
    (h : string_delim fuel lexer valid_symbols = some (true, lexer')) :
    valid_symbols lexer'.result_symbol = true := by
  unfold string_delim at h
  simp only [] at h
  split at h
  · simp at h
  · split at h
    · simp at h
    · split at h
      · split at h
        · simp at h
        · rename_i hv
          simp only [Option.some.injEq, Prod.mk.injEq, true_and] at h
          subst h
          simpa using hv
      · split at h
        · simp at h
        · rename_i hv
          simp only [Option.some.injEq, Prod.mk.injEq, true_and] at h
          subst h
          simpa using hv

theorem string_content_loop_emits (triple_string interpolate : Bool) (fuel : Nat)
    (lexer lexer' : TSLexer) (b : Bool)
    (h : string_content_loop triple_string interpolate fuel lexer = some (b, lexer')) :
    b = true ∧ lexer'.result_symbol = content_symbol triple_string interpolate := by
  induction fuel generalizing lexer with
  | zero => simp [string_content_loop] at h
  | succ fuel ih =>
    unfold string_content_loop at h
    simp only [] at h
    split at h
    · split at h
      · rename_i ht
        simp only [Option.some.injEq, Prod.mk.injEq] at h
        obtain ⟨rfl, rfl⟩ := h
        cases triple_string <;> simp_all [content_symbol]
      · rename_i ht
        split at h
        · simp at h
        · split at h
          · simp only [Option.some.injEq, Prod.mk.injEq] at h
            obtain ⟨rfl, rfl⟩ := h
            cases triple_string <;> simp_all [content_symbol]
          · exact ih _ h
    · split at h
      · split at h
        · exact ih _ h
        · rename_i hi
          simp only [Option.some.injEq, Prod.mk.injEq] at h
          obtain ⟨rfl, rfl⟩ := h
          cases interpolate <;> simp_all [content_symbol]
      · split at h
        · split at h
          · simp only [Option.some.injEq, Prod.mk.injEq] at h
            obtain ⟨rfl, rfl⟩ := h
            exact ⟨rfl, rfl⟩
          · exact ih _ h
        · split at h
          · simp only [Option.some.injEq, Prod.mk.injEq] at h
            obtain ⟨rfl, rfl⟩ := h
            exact ⟨rfl, rfl⟩
          · exact ih _ h

theorem block_comment_loop_emits (fuel : Nat) (lexer lexer' : TSLexer) (after_eq : Bool)
    (nesting_depth : Nat)
    (h : block_comment_loop fuel lexer after_eq nesting_depth = some (true, lexer')) :
    lexer'.result_symbol = BLOCK_COMMENT := by
  induction fuel generalizing lexer after_eq nesting_depth with
  | zero => simp [block_comment_loop] at h
  | succ fuel ih =>
    unfold block_comment_loop at h
    simp only [] at h
    split at h
    · exact absurd (congrArg Prod.fst (Option.some.inj h)) Bool.false_ne_true
    · split at h
      · exact ih _ _ _ h
      · split at h
        · split at h
          · split at h
            · have h2 := congrArg Prod.snd (Option.some.inj h)
              simp only at h2
              rw [← h2]
            · exact ih _ _ _ h
          · split at h
            · exact ih _ _ _ h
            · exact ih _ _ _ h
        · exact ih _ _ _ h

/-- The kind `string_content` computes from its two flags is in the hint set,
unless the hint set has `STRING_CONTENT` and
`TRIPLE_STRING_CONTENT_NO_INTERPOLATION` without `TRIPLE_STRING_CONTENT`. -/
theorem content_symbol_valid (valid_symbols : TokenType → Bool)
    (hany : (valid_symbols STRING_CONTENT || valid_symbols STRING_CONTENT_NO_INTERPOLATION ||
      valid_symbols TRIPLE_STRING_CONTENT ||
      valid_symbols TRIPLE_STRING_CONTENT_NO_INTERPOLATION) = true)
    (hform : ¬ (valid_symbols STRING_CONTENT = true ∧
      valid_symbols TRIPLE_STRING_CONTENT_NO_INTERPOLATION = true ∧
      valid_symbols TRIPLE_STRING_CONTENT = false)) :
    valid_symbols (content_symbol
      (valid_symbols TRIPLE_STRING_CONTENT ||
        valid_symbols TRIPLE_STRING_CONTENT_NO_INTERPOLATION)
      (valid_symbols STRING_CONTENT || valid_symbols TRIPLE_STRING_CONTENT)) = true := by
  unfold content_symbol
  cases h1 : valid_symbols STRING_CONTENT <;>
  cases h2 : valid_symbols STRING_CONTENT_NO_INTERPOLATION <;>
  cases h3 : valid_symbols TRIPLE_STRING_CONTENT <;>
  cases h4 : valid_symbols TRIPLE_STRING_CONTENT_NO_INTERPOLATION <;>
  simp_all

theorem string_content_emits (fuel : Nat) (lexer lexer' : TSLexer)
    (valid_symbols : TokenType → Bool)
    (h : string_content fuel lexer valid_symbols = some (true, lexer')) :
    valid_symbols lexer'.result_symbol = true ∨
    lexer'.result_symbol = content_symbol
      (valid_symbols TRIPLE_STRING_CONTENT ||
        valid_symbols TRIPLE_STRING_CONTENT_NO_INTERPOLATION)
      (valid_symbols STRING_CONTENT || valid_symbols TRIPLE_STRING_CONTENT) := by
  unfold string_content at h
  simp only [] at h
  split at h
  · split at h
    · exact Or.inl (string_delim_emits_valid _ _ _ _ h)
    · split at h
      · simp at h
      · split at h
        · simp at h
        · split at h
          · simp at h
          · split at h
            · simp at h
            · exact Or.inr (string_content_loop_emits _ _ _ _ _ _ h).2
  · split at h
    · simp at h
    · exact Or.inr (string_content_loop_emits _ _ _ _ _ _ h).2

theorem string_delim_emits_delim (fuel : Nat) (lexer lexer' : TSLexer)
    (valid_symbols : TokenType → Bool)
    (h : string_delim fuel lexer valid_symbols = some (true, lexer')) :
    lexer'.result_symbol = STRING_DELIM ∨ lexer'.result_symbol = TRIPLE_STRING_DELIM := by
  unfold string_delim at h
  simp only [] at h
  split at h
  · simp at h
  · split at h
    · simp at h
    · split at h
      · split at h
        · simp at h
        · simp only [Option.some.injEq, Prod.mk.injEq, true_and] at h
          subst h
          exact Or.inl rfl
      · split at h
        · simp at h
        · simp only [Option.some.injEq, Prod.mk.injEq, true_and] at h
          subst h
          exact Or.inr rfl

theorem string_content_emits_kind (fuel : Nat) (lexer lexer' : TSLexer)
    (valid_symbols : TokenType → Bool)
    (h : string_content fuel lexer valid_symbols = some (true, lexer')) :
    lexer'.result_symbol = STRING_DELIM ∨ lexer'.result_symbol = TRIPLE_STRING_DELIM ∨
    lexer'.result_symbol = content_symbol
      (valid_symbols TRIPLE_STRING_CONTENT ||
        valid_symbols TRIPLE_STRING_CONTENT_NO_INTERPOLATION)
      (valid_symbols STRING_CONTENT || valid_symbols TRIPLE_STRING_CONTENT) := by
  unfold string_content at h
  simp only [] at h
  split at h
  · split at h
    · rcases string_delim_emits_delim _ _ _ _ h with h1 | h1
      · exact Or.inl h1
      · exact Or.inr (Or.inl h1)
    · split at h
      · simp at h
      · split at h
        · simp at h
        · split at h
          · simp at h
          · split at h
            · simp at h
            · exact Or.inr (Or.inr (string_content_loop_emits _ _ _ _ _ _ h).2)
  · split at h
    · simp at h
    · exact Or.inr (Or.inr (string_content_loop_emits _ _ _ _ _ _ h).2)

theorem content_symbol_ne_paren (t i : Bool) : content_symbol t i ≠ IMMEDIATE_PAREN := by
  cases t <;> cases i <;> decide

/-! ## C1: the emitted kind and the hint set -/

/-- C2: for every hint set, input and step budget, the scan succeeds with
`IMMEDIATE_PAREN` exactly when the lookahead at entry is `'('` and
`IMMEDIATE_PAREN` is valid; and whenever it does, the cursor it leaves is the
entry cursor with only `result_symbol` written: no character advanced over, no
mark-end call (`pos`, `input`, `mark`, `mark_calls`, `token_start` unchanged). -/
theorem immediate_paren_iff (iswspace : Nat → Bool) (fuel : Nat) (lexer : TSLexer)
    (valid_symbols : TokenType → Bool) :
    ((∃ lexer', tree_sitter_julia_external_scanner_scan iswspace fuel lexer valid_symbols
          = some (true, lexer') ∧ lexer'.result_symbol = IMMEDIATE_PAREN) ↔
      (lexer.lookahead = 40 ∧ valid_symbols IMMEDIATE_PAREN = true)) ∧
    (∀ lexer', tree_sitter_julia_external_scanner_scan iswspace fuel lexer valid_symbols
          = some (true, lexer') → lexer'.result_symbol = IMMEDIATE_PAREN →
        lexer' = { lexer with result_symbol := IMMEDIATE_PAREN } ∧
        lexer'.pos = lexer.pos ∧ lexer'.input = lexer.input ∧
        lexer'.mark_calls = lexer.mark_calls ∧ lexer'.mark = lexer.mark) := by
  have key : ∀ lexer', tree_sitter_julia_external_scanner_scan iswspace fuel lexer
      valid_symbols = some (true, lexer') → lexer'.result_symbol = IMMEDIATE_PAREN →
      (lexer.lookahead = 40 ∧ valid_symbols IMMEDIATE_PAREN = true) ∧
      lexer' = { lexer with result_symbol := IMMEDIATE_PAREN } := by
    intro lexer' h hs
    unfold tree_sitter_julia_external_scanner_scan at h
    simp only [] at h
    split at h
    · rename_i hp
      simp only [Option.some.injEq, Prod.mk.injEq, true_and] at h
      exact ⟨hp, h.symm⟩
    · exfalso
      split at h
      · rcases string_content_emits_kind _ _ _ _ h with hc | hc | hc
        · rw [hs] at hc
          exact absurd hc (by decide)
        · rw [hs] at hc
          exact absurd hc (by decide)
        · rw [hs] at hc
          exact content_symbol_ne_paren _ _ hc.symm
      · split at h
        · simp at h
        · split at h
          · split at h
            · simp at h
            · have := block_comment_loop_emits _ _ _ _ _ h
              rw [hs] at this
              exact absurd this (by decide)
          · rcases string_delim_emits_delim _ _ _ _ h with hc | hc
            · rw [hs] at hc
              exact absurd hc (by decide)
            · rw [hs] at hc
              exact absurd hc (by decide)
  refine ⟨⟨?_, ?_⟩, ?_⟩
  · rintro ⟨lexer', h, hs⟩
    exact (key lexer' h hs).1
  · intro hp
    refine ⟨{ lexer with result_symbol := IMMEDIATE_PAREN }, ?_, rfl⟩
    unfold tree_sitter_julia_external_scanner_scan
    rw [if_pos hp]
  · intro lexer' h hs
    obtain ⟨_, rfl⟩ := key lexer' h hs
    exact ⟨rfl, rfl, rfl, rfl, rfl⟩

/-! ## C3: the delimiter classifier -/

/-- What `string_delim` returns at a `'"'`, in closed form: `k` is the number of
further quotes (at most two) after the first. -/
theorem string_delim_at_quote (fuel : Nat) (rest : List Nat) (p t : Nat) (m : Option Nat)
    (n : Nat) (s : TokenType) (valid_symbols : TokenType → Bool) (hfuel : 3 ≤ fuel) :
    string_delim fuel (TSLexer.mk (34 :: rest) p t m n s) valid_symbols =
      if quote_run 2 rest < 2 then
        (if valid_symbols STRING_DELIM then
          some (true, TSLexer.mk (rest.drop (quote_run 2 rest)) (p + 1 + quote_run 2 rest) t
            (some (p + 1)) (n + 1) STRING_DELIM)
        else
          some (false, TSLexer.mk (rest.drop (quote_run 2 rest)) (p + 1 + quote_run 2 rest) t
            (some (p + 1)) (n + 1) s))
      else
        (if valid_symbols TRIPLE_STRING_DELIM then
          some (true, TSLexer.mk (rest.drop 2) (p + 3) t (some (p + 3)) (n + 2)
            TRIPLE_STRING_DELIM)
        else
          some (false, TSLexer.mk (rest.drop 2) (p + 3) t (some (p + 1)) (n + 1) s)) := by
  have hk : quote_run 2 rest ≤ 2 := by unfold quote_run; omega
  unfold string_delim
  simp only [lookahead_cons, ne_eq, not_true_eq_false, if_false, advance_cons, mark_end_mk]
  rw [quote_loop_eq _ _ _ (by omega) (by omega)]
  simp only [advanced, Nat.add_one_sub_one, show 3 - 1 = 2 from rfl]
  by_cases h2 : quote_run 2 rest < 2
  · have h3 : 1 + quote_run 2 rest < 3 := by omega
    simp only [h2, h3, if_true]
    cases valid_symbols STRING_DELIM <;> simp
  · have h3 : ¬ 1 + quote_run 2 rest < 3 := by omega
    have h4 : quote_run 2 rest = 2 := by omega
    simp only [h2, h3, if_false, h4]
    cases valid_symbols TRIPLE_STRING_DELIM <;> simp

/-- C3: let `r` be the number of consecutive `'"'` at the cursor, capped at 3.
With a step budget of at least 3: when the lookahead is not `'"'`,
`string_delim` fails and leaves the cursor as it was; when it is, `string_delim`
returns, it succeeds iff (`r = 3` and `TRIPLE_STRING_DELIM` is valid) or (`r < 3`
and `STRING_DELIM` is valid), a success with `r = 3` writes
`TRIPLE_STRING_DELIM` and the last mark-end is after the third quote, and a
success with `r < 3` writes `STRING_DELIM` and the last mark-end is after the
first quote. -/
theorem string_delim_classifies (fuel : Nat) (lexer : TSLexer)
    (valid_symbols : TokenType → Bool) (hfuel : 3 ≤ fuel) :
    (lexer.lookahead ≠ 34 → string_delim fuel lexer valid_symbols = some (false, lexer)) ∧
    (lexer.lookahead = 34 →
      (1 ≤ quote_run 3 lexer.input ∧ quote_run 3 lexer.input ≤ 3) ∧
      (∃ b lexer', string_delim fuel lexer valid_symbols = some (b, lexer')) ∧
      ((∃ lexer', string_delim fuel lexer valid_symbols = some (true, lexer')) ↔
        ((quote_run 3 lexer.input = 3 ∧ valid_symbols TRIPLE_STRING_DELIM = true) ∨
         (quote_run 3 lexer.input < 3 ∧ valid_symbols STRING_DELIM = true))) ∧
      (∀ lexer', string_delim fuel lexer valid_symbols = some (true, lexer') →
        (quote_run 3 lexer.input = 3 →
          lexer'.result_symbol = TRIPLE_STRING_DELIM ∧ lexer'.mark = some (lexer.pos + 3) ∧
          lexer'.pos = lexer.pos + 3 ∧ lexer'.input = lexer.input.drop 3 ∧
          lexer'.token_start = lexer.token_start) ∧
        (quote_run 3 lexer.input < 3 →
          lexer'.result_symbol = STRING_DELIM ∧ lexer'.mark = some (lexer.pos + 1) ∧
          lexer'.token_start = lexer.token_start))) := by
  obtain ⟨input, p, t, m, n, s⟩ := lexer
  constructor
  · intro h
    unfold string_delim
    rw [if_pos h]
  · intro h
    cases input with
    | nil => simp at h
    | cons c rest =>
      simp only [lookahead_cons] at h
      subst h
      have hk : quote_run 2 rest ≤ 2 := by unfold quote_run; omega
      have hr : quote_run 3 (34 :: rest) = quote_run 2 rest + 1 := quote_run_cons_quote 2 rest
      simp only [hr]
      rw [string_delim_at_quote fuel rest p t m n s valid_symbols hfuel]
      by_cases h2 : quote_run 2 rest < 2
      · have h3 : quote_run 2 rest + 1 ≠ 3 := by omega
        have h4 : quote_run 2 rest + 1 < 3 := by omega
        cases hv : valid_symbols STRING_DELIM <;> simp [h2, h3, h4, hk]
      · have h4 : quote_run 2 rest = 2 := by omega
        cases hv : valid_symbols TRIPLE_STRING_DELIM <;> simp [h4]

/-- C3 witness: the classifier at the text `""x` with both delimiter kinds valid
(run of two: the plain delimiter, marked after the first quote). -/
theorem string_delim_classifies_witness :
    3 ≤ 3 ∧
    ((∃ lexer', string_delim 3 (start [34, 34, 120])
        (hints [STRING_DELIM, TRIPLE_STRING_DELIM]) = some (true, lexer')) ↔
      ((quote_run 3 (start [34, 34, 120]).input = 3 ∧
          hints [STRING_DELIM, TRIPLE_STRING_DELIM] TRIPLE_STRING_DELIM = true) ∨
       (quote_run 3 (start [34, 34, 120]).input < 3 ∧
          hints [STRING_DELIM, TRIPLE_STRING_DELIM] STRING_DELIM = true))) :=
  ⟨le_refl 3, ((string_delim_classifies 3 (start [34, 34, 120])
    (hints [STRING_DELIM, TRIPLE_STRING_DELIM]) (le_refl 3)).2 rfl).2.2.1⟩

/-! ## The content loop over characters that do not end it -/

theorem string_content_loop_plain (triple_string interpolate : Bool) (body : List Nat)
    (hbody : ∀ c ∈ body, plain_char interpolate c) (fuel : Nat) (rest : List Nat)
    (p t : Nat) (m : Option Nat) (n : Nat) (s : TokenType) :
    string_content_loop triple_string interpolate (fuel + body.length)
        (TSLexer.mk (body ++ rest) p t m n s) =
      string_content_loop triple_string interpolate fuel
        (TSLexer.mk rest (p + body.length) t m n s) := by
  induction body generalizing p with
  | nil => rfl
  | cons c cs ih =>
    obtain ⟨h34, h92, h0, h36⟩ := hbody c (List.mem_cons_self c cs)
    have hcs : ∀ d ∈ cs, plain_char interpolate d := fun d hd =>
      hbody d (List.mem_cons_of_mem c hd)
    have hlen : fuel + (c :: cs).length = (fuel + cs.length) + 1 := by
      simp only [List.length_cons]; omega
    rw [hlen, List.cons_append, string_content_loop]
    simp only [lookahead_cons, h34, h92, h0, if_false, advance_cons]
    by_cases hd : c = 36
    · have hi : interpolate = false := by
        cases interpolate
        · rfl
        · exact absurd hd (h36 rfl)
      subst hi
      simp only [hd, if_true, Bool.not_false]
      rw [ih hcs (p + 1)]
      simp only [List.length_cons]
      congr 2
      omega
    · simp only [hd, if_false]
      rw [ih hcs (p + 1)]
      simp only [List.length_cons]
      congr 2
      omega

theorem plain_of_ordinary (interpolate : Bool) (body : List Nat)
    (hbody : ∀ c ∈ body, c ≠ 34 ∧ c ≠ 36 ∧ c ≠ 92 ∧ c ≠ 0) :
    ∀ c ∈ body, plain_char interpolate c :=
  fun c hc => ⟨(hbody c hc).1, (hbody c hc).2.2.1, (hbody c hc).2.2.2, fun _ => (hbody c hc).2.1⟩

theorem string_content_loop_pieces (triple_string interpolate : Bool) (pieces : List Piece)
    (hok : ∀ x ∈ pieces, x.ok) (fuel : Nat) (rest : List Nat)
    (p t : Nat) (m : Option Nat) (n : Nat) (s : TokenType) :
    string_content_loop triple_string interpolate (fuel + pieces.length)
        (TSLexer.mk (render pieces ++ rest) p t m n s) =
      string_content_loop triple_string interpolate fuel
        (TSLexer.mk rest (p + (render pieces).length) t m n s) := by
  induction pieces generalizing p with
  | nil => rfl
  | cons x xs ih =>
    have hx := hok x (List.mem_cons_self x xs)
    have hxs : ∀ y ∈ xs, y.ok := fun y hy => hok y (List.mem_cons_of_mem x hy)
    have hlen : fuel + (x :: xs).length = (fuel + xs.length) + 1 := by
      simp only [List.length_cons]; omega
    rw [hlen]
    cases x with
    | ordinary c =>
      obtain ⟨h34, h36, h92, h0⟩ := hx
      simp only [render, Piece.chars, List.cons_append, List.nil_append, List.length_cons]
      rw [string_content_loop]
      simp only [lookahead_cons, h34, h36, h92, h0, if_false, advance_cons]
      rw [ih hxs (p + 1)]
      congr 2
      omega
    | escape c =>
      have h0 : c ≠ 0 := hx
      simp only [render, Piece.chars, List.cons_append, List.nil_append, List.length_cons]
      rw [string_content_loop]
      simp only [lookahead_cons, show (92 : Nat) ≠ 34 from by decide,
        show (92 : Nat) ≠ 36 from by decide, h0, if_false, if_true, advance_cons]
      rw [ih hxs (p + 1 + 1)]
      congr 2
      omega

/-! ## Entry into `string_content` -/

/-- Away from a `'"'`, `string_content` is its `'$'` test followed by its loop. -/
theorem string_content_not_quote (fuel : Nat) (lexer : TSLexer)
    (valid_symbols : TokenType → Bool) (h : lexer.lookahead ≠ 34) :
    string_content fuel lexer valid_symbols =
      if (valid_symbols STRING_CONTENT || valid_symbols TRIPLE_STRING_CONTENT) = true ∧
          lexer.lookahead = 36 then
        some (false, lexer)
      else
        string_content_loop
          (valid_symbols TRIPLE_STRING_CONTENT ||
            valid_symbols TRIPLE_STRING_CONTENT_NO_INTERPOLATION)
          (valid_symbols STRING_CONTENT || valid_symbols TRIPLE_STRING_CONTENT) fuel lexer := by
  unfold string_content
  simp only [h, if_false]

/-- With a content kind valid and `IMMEDIATE_PAREN` not, the scan is
`string_content`. -/
theorem scan_content (iswspace : Nat → Bool) (fuel : Nat) (lexer : TSLexer)
    (valid_symbols : TokenType → Bool) (hp : valid_symbols IMMEDIATE_PAREN = false)
    (hany : (valid_symbols STRING_CONTENT || valid_symbols STRING_CONTENT_NO_INTERPOLATION ||
      valid_symbols TRIPLE_STRING_CONTENT ||
      valid_symbols TRIPLE_STRING_CONTENT_NO_INTERPOLATION) = true) :
    tree_sitter_julia_external_scanner_scan iswspace fuel lexer valid_symbols =
      string_content fuel lexer valid_symbols := by
  unfold tree_sitter_julia_external_scanner_scan
  simp only [hp, Bool.false_eq_true, and_false, if_false, hany, if_true]

theorem lookahead_append_cons (c : Nat) (cs rest : List Nat) (p t : Nat) (m : Option Nat)
    (n : Nat) (s : TokenType) :
    (TSLexer.mk (c :: cs ++ rest) p t m n s).lookahead = c := rfl

/-! ## C4: plain content up to the closing quote -/

/-- C4: for every non-empty `body` without `'"'`, `'$'`, backslash or NUL, every
hint set with a plain content kind valid, no triple content kind valid and
`IMMEDIATE_PAREN` not valid, and a step budget above the length of `body`: the
scan of `body` followed by `'"'` and any `rest` succeeds; the cursor it leaves
differs from the entry cursor only in having advanced (without skipping, without
mark-end) over exactly `body`, the quote being the lookahead, and in
`result_symbol`, which is `STRING_CONTENT` if that is valid and
`STRING_CONTENT_NO_INTERPOLATION` otherwise. So for a cursor handed over with no
mark, the token runs from the entry position to the end of `body`. -/
theorem plain_content_until_quote (iswspace : Nat → Bool) (fuel : Nat) (lexer : TSLexer)
    (valid_symbols : TokenType → Bool) (body rest : List Nat)
    (hne : body ≠ [])
    (hbody : ∀ c ∈ body, c ≠ 34 ∧ c ≠ 36 ∧ c ≠ 92 ∧ c ≠ 0)
    (hplain : valid_symbols STRING_CONTENT = true ∨
      valid_symbols STRING_CONTENT_NO_INTERPOLATION = true)
    (ht1 : valid_symbols TRIPLE_STRING_CONTENT = false)
    (ht2 : valid_symbols TRIPLE_STRING_CONTENT_NO_INTERPOLATION = false)
    (hp : valid_symbols IMMEDIATE_PAREN = false)
    (hin : lexer.input = body ++ 34 :: rest)
    (hfuel : body.length + 1 ≤ fuel) :
    ∃ lexer', tree_sitter_julia_external_scanner_scan iswspace fuel lexer valid_symbols =
        some (true, lexer') ∧
      lexer' = { lexer with
        input := 34 :: rest
        pos := lexer.pos + body.length
        result_symbol := if valid_symbols STRING_CONTENT = true then STRING_CONTENT
          else STRING_CONTENT_NO_INTERPOLATION } ∧
      (lexer.mark = none →
        lexer'.token_end = lexer.pos + body.length ∧
        lexer'.token_start = lexer.token_start) := by
  obtain ⟨input, p, t, m, n, s⟩ := lexer
  simp only at hin
  subst hin
  refine ⟨_, ?_, rfl, fun hm => ⟨by simp only at hm; subst hm; rfl, rfl⟩⟩
  have hany : (valid_symbols STRING_CONTENT || valid_symbols STRING_CONTENT_NO_INTERPOLATION ||
      valid_symbols TRIPLE_STRING_CONTENT ||
      valid_symbols TRIPLE_STRING_CONTENT_NO_INTERPOLATION) = true := by
    rcases hplain with h | h <;> simp [h]
  rw [scan_content iswspace fuel _ valid_symbols hp hany]
  obtain ⟨c, cs, rfl⟩ := List.exists_cons_of_ne_nil hne
  have hc := hbody c (List.mem_cons_self c cs)
  rw [string_content_not_quote _ _ _ (by rw [lookahead_append_cons]; exact hc.1)]
  rw [if_neg (by rw [lookahead_append_cons]; exact fun h => hc.2.1 h.2)]
  obtain ⟨f, rfl⟩ : ∃ f, fuel = (f + 1) + (c :: cs).length := ⟨fuel - (c :: cs).length - 1, by omega⟩
  rw [string_content_loop_plain _ _ (c :: cs) (plain_of_ordinary _ _ hbody)]
  rw [string_content_loop]
  simp only [lookahead_cons, if_true, ht1, ht2, Bool.or_false, Bool.or_self, Bool.not_false]

/-- C4 witness: the body `abc` of the text `"abc"`, scanned after the opening
quote with only `STRING_CONTENT` valid, is the token; the closing quote stays. -/
theorem plain_content_until_quote_witness :
    ∃ lexer', tree_sitter_julia_external_scanner_scan iswspace_C 4
        (TSLexer.mk [97, 98, 99, 34] 1 1 none 0 STRING_DELIM) (hints [STRING_CONTENT]) =
        some (true, lexer') ∧
      lexer' = TSLexer.mk [34] 4 1 none 0 STRING_CONTENT ∧
      ((none : Option Nat) = none → lexer'.token_end = 4 ∧ lexer'.token_start = 1) :=
  plain_content_until_quote iswspace_C 4 (TSLexer.mk [97, 98, 99, 34] 1 1 none 0 STRING_DELIM)
    (hints [STRING_CONTENT]) [97, 98, 99] [] (by decide) (by decide) (Or.inl rfl) rfl rfl rfl
    rfl (by decide)

theorem render_head (x : Piece) (xs : List Piece) (hx : x.ok) :
    ∃ c cs, render (x :: xs) = c :: cs ∧ c ≠ 34 ∧ c ≠ 36 := by
  cases x with
  | ordinary c => exact ⟨c, render xs, rfl, hx.1, hx.2.1⟩
  | escape c => exact ⟨92, c :: render xs, rfl, by decide, by decide⟩

/-! ## C6: escape pairs never end the content -/

/-- C6: for every non-empty list of pieces, each an ordinary character (not
`'"'`, `'$'`, backslash, NUL) or a backslash followed by any non-NUL character,
every hint set with a plain content kind valid, no triple content kind and not
`IMMEDIATE_PAREN` valid, and a step budget above the number of pieces: the scan
of the rendered body followed by `'"'` and any `rest` succeeds with the plain
content kind (interpolating or not, as the hint set says), having advanced over
exactly the body with no mark-end call; the quote is the lookahead. So for a
cursor handed over with no mark, the token runs from the entry position to the
end of the body. -/
theorem escaped_content_until_quote (iswspace : Nat → Bool) (fuel : Nat) (lexer : TSLexer)
    (valid_symbols : TokenType → Bool) (pieces : List Piece) (rest : List Nat)
    (hne : pieces ≠ [])
    (hok : ∀ x ∈ pieces, x.ok)
    (hplain : valid_symbols STRING_CONTENT = true ∨
      valid_symbols STRING_CONTENT_NO_INTERPOLATION = true)
    (ht1 : valid_symbols TRIPLE_STRING_CONTENT = false)
    (ht2 : valid_symbols TRIPLE_STRING_CONTENT_NO_INTERPOLATION = false)
    (hp : valid_symbols IMMEDIATE_PAREN = false)
    (hin : lexer.input = render pieces ++ 34 :: rest)
    (hfuel : pieces.length + 1 ≤ fuel) :
    ∃ lexer', tree_sitter_julia_external_scanner_scan iswspace fuel lexer valid_symbols =
        some (true, lexer') ∧
      lexer' = { lexer with
        input := 34 :: rest
        pos := lexer.pos + (render pieces).length
        result_symbol := if valid_symbols STRING_CONTENT = true then STRING_CONTENT
          else STRING_CONTENT_NO_INTERPOLATION } ∧
      (lexer.mark = none →
        lexer'.token_end = lexer.pos + (render pieces).length ∧
        lexer'.token_start = lexer.token_start) := by
  obtain ⟨input, p, t, m, n, s⟩ := lexer
  simp only at hin
  subst hin
  refine ⟨_, ?_, rfl, fun hm => ⟨by simp only at hm; subst hm; rfl, rfl⟩⟩
  have hany : (valid_symbols STRING_CONTENT || valid_symbols STRING_CONTENT_NO_INTERPOLATION ||
      valid_symbols TRIPLE_STRING_CONTENT ||
      valid_symbols TRIPLE_STRING_CONTENT_NO_INTERPOLATION) = true := by
    rcases hplain with h | h <;> simp [h]
  rw [scan_content iswspace fuel _ valid_symbols hp hany]
  obtain ⟨x, xs, rfl⟩ := List.exists_cons_of_ne_nil hne
  obtain ⟨c, cs, hr, h34, h36⟩ := render_head x xs (hok x (List.mem_cons_self x xs))
  have hla : (TSLexer.mk (render (x :: xs) ++ 34 :: rest) p t m n s).lookahead = c := by
    rw [hr]; rfl
  rw [string_content_not_quote _ _ _ (by rw [hla]; exact h34)]
  rw [if_neg (by rw [hla]; exact fun h => h36 h.2)]
  obtain ⟨f, rfl⟩ : ∃ f, fuel = (f + 1) + (x :: xs).length :=
    ⟨fuel - (x :: xs).length - 1, by omega⟩
  rw [string_content_loop_pieces _ _ (x :: xs) hok]
  rw [string_content_loop]
  simp only [lookahead_cons, if_true, ht1, ht2, Bool.or_false, Bool.or_self, Bool.not_false]

/-- C6 witness: the body `a\"b` of the text `"a\"b"` is one content token, in
interpolating mode. -/
theorem escaped_content_until_quote_witness :
    ∃ lexer', tree_sitter_julia_external_scanner_scan iswspace_C 4
        (TSLexer.mk [97, 92, 34, 98, 34] 1 1 none 0 STRING_DELIM) (hints [STRING_CONTENT]) =
        some (true, lexer') ∧
      lexer' = TSLexer.mk [34] 5 1 none 0 STRING_CONTENT ∧
      ((none : Option Nat) = none → lexer'.token_end = 5 ∧ lexer'.token_start = 1) :=
  escaped_content_until_quote iswspace_C 4
    (TSLexer.mk [97, 92, 34, 98, 34] 1 1 none 0 STRING_DELIM) (hints [STRING_CONTENT])
    [Piece.ordinary 97, Piece.escape 34, Piece.ordinary 98] [] (by decide) (by decide)
    (Or.inl rfl) rfl rfl rfl rfl (by decide)

/-! ## C7: content ends at an interpolation -/

/-- C7: with `STRING_CONTENT` valid, no triple content kind and not
`IMMEDIATE_PAREN` valid: for every non-empty `prefix_` (no `'"'`, `'$'`, backslash,
NUL) and a step budget above its length, the scan of `prefix_` followed by `'$'`
and any `rest` succeeds with `STRING_CONTENT`, its one mark-end call made right
before the `'$'`, which is the lookahead; and the scan of an input that begins
with `'$'` fails and leaves the cursor as it was, whatever the budget. -/
theorem content_stops_at_dollar (iswspace : Nat → Bool) (fuel : Nat) (lexer : TSLexer)
    (valid_symbols : TokenType → Bool) (rest : List Nat)
    (hsc : valid_symbols STRING_CONTENT = true)
    (ht1 : valid_symbols TRIPLE_STRING_CONTENT = false)
    (ht2 : valid_symbols TRIPLE_STRING_CONTENT_NO_INTERPOLATION = false)
    (hp : valid_symbols IMMEDIATE_PAREN = false) :
    (∀ prefix_ : List Nat, prefix_ ≠ [] →
      (∀ c ∈ prefix_, c ≠ 34 ∧ c ≠ 36 ∧ c ≠ 92 ∧ c ≠ 0) →
      lexer.input = prefix_ ++ 36 :: rest →
      prefix_.length + 1 ≤ fuel →
      tree_sitter_julia_external_scanner_scan iswspace fuel lexer valid_symbols =
        some (true, { lexer with
          input := 36 :: rest
          pos := lexer.pos + prefix_.length
          mark := some (lexer.pos + prefix_.length)
          mark_calls := lexer.mark_calls + 1
          result_symbol := STRING_CONTENT })) ∧
    (lexer.input = 36 :: rest →
      tree_sitter_julia_external_scanner_scan iswspace fuel lexer valid_symbols =
        some (false, lexer)) := by
  obtain ⟨input, p, t, m, n, s⟩ := lexer
  have hany : (valid_symbols STRING_CONTENT || valid_symbols STRING_CONTENT_NO_INTERPOLATION ||
      valid_symbols TRIPLE_STRING_CONTENT ||
      valid_symbols TRIPLE_STRING_CONTENT_NO_INTERPOLATION) = true := by
    simp [hsc]
  constructor
  · intro prefix_ hne hbody hin hfuel
    simp only at hin
    subst hin
    rw [scan_content iswspace fuel _ valid_symbols hp hany]
    obtain ⟨c, cs, rfl⟩ := List.exists_cons_of_ne_nil hne
    have hc := hbody c (List.mem_cons_self c cs)
    rw [string_content_not_quote _ _ _ (by rw [lookahead_append_cons]; exact hc.1)]
    rw [if_neg (by rw [lookahead_append_cons]; exact fun h => hc.2.1 h.2)]
    obtain ⟨f, rfl⟩ : ∃ f, fuel = (f + 1) + (c :: cs).length :=
      ⟨fuel - (c :: cs).length - 1, by omega⟩
    rw [string_content_loop_plain _ _ (c :: cs) (plain_of_ordinary _ _ hbody)]
    rw [string_content_loop]
    simp [hsc, ht1, ht2]
  · intro hin
    simp only at hin
    subst hin
    rw [scan_content iswspace fuel _ valid_symbols hp hany]
    rw [string_content_not_quote _ _ _ (by simp)]
    simp [hsc]

/-- C7 witness: on `a$b"` the content is `a`, marked before the `'$'`; at the
`'$'` itself the scan refuses without moving. -/
theorem content_stops_at_dollar_witness :
    (tree_sitter_julia_external_scanner_scan iswspace_C 2
        (TSLexer.mk [97, 36, 98, 34] 1 1 none 0 STRING_DELIM) (hints [STRING_CONTENT]) =
      some (true, TSLexer.mk [36, 98, 34] 2 1 (some 2) 1 STRING_CONTENT)) ∧
    (tree_sitter_julia_external_scanner_scan iswspace_C 2
        (TSLexer.mk [36, 98, 34] 2 2 none 0 STRING_CONTENT) (hints [STRING_CONTENT]) =
      some (false, TSLexer.mk [36, 98, 34] 2 2 none 0 STRING_CONTENT)) :=
  ⟨(content_stops_at_dollar iswspace_C 2 (TSLexer.mk [97, 36, 98, 34] 1 1 none 0 STRING_DELIM)
      (hints [STRING_CONTENT]) [98, 34] rfl rfl rfl rfl).1 [97] (by decide) (by decide) rfl
      (by decide),
   (content_stops_at_dollar iswspace_C 2 (TSLexer.mk [36, 98, 34] 2 2 none 0 STRING_CONTENT)
      (hints [STRING_CONTENT]) [98, 34] rfl rfl rfl rfl).2 rfl⟩

/-! ## C5: triple-quoted content up to the closing run of three -/

theorem not_infix_tail (c : Nat) (s : List Nat) (h : ¬ [34, 34, 34] <:+: c :: s) :
    ¬ [34, 34, 34] <:+: s := fun hs =>
  h (List.IsInfix.trans hs (List.suffix_cons c s).isInfix)

theorem getLast_tail (c d : Nat) (s : List Nat) (h : (c :: d :: s).getLast? ≠ some 34) :
    (d :: s).getLast? ≠ some 34 := by
  simpa [List.getLast?_cons_cons] using h

/-- The content loop in triple mode, over a text `s` that has no backslash, `'$'`
or NUL, no three consecutive quotes and no quote at its end, followed by three
quotes: it succeeds with the last mark-end right after `s`, the cursor after the
three quotes. -/
theorem string_content_loop_triple (interpolate : Bool) (s : List Nat) :
    ∀ (fuel : Nat) (rest : List Nat) (p t : Nat) (m : Option Nat) (n : Nat) (sym : TokenType),
    (∀ c ∈ s, c ≠ 36 ∧ c ≠ 92 ∧ c ≠ 0) →
    ¬ [34, 34, 34] <:+: s →
    s.getLast? ≠ some 34 →
    s.length + 5 ≤ fuel →
    ∃ n', string_content_loop true interpolate fuel
        (TSLexer.mk (s ++ 34 :: 34 :: 34 :: rest) p t m n sym) =
      some (true, TSLexer.mk rest (p + s.length + 3) t (some (p + s.length)) n'
        (if interpolate then TRIPLE_STRING_CONTENT
          else TRIPLE_STRING_CONTENT_NO_INTERPOLATION)) := by
  generalize hlen : s.length = len
  induction len using Nat.strong_induction_on generalizing s with
  | _ len ih =>
    intro fuel rest p t m n sym hchars hno hlast hfuel
    subst hlen
    obtain ⟨f, rfl⟩ : ∃ f, fuel = f + 1 := ⟨fuel - 1, by omega⟩
    cases s with
    | nil =>
      refine ⟨n + 1, ?_⟩
      rw [string_content_loop]
      simp only [List.nil_append, lookahead_cons, if_true, Bool.not_true, Bool.false_eq_true,
        if_false, mark_end_mk]
      rw [quote_loop_eq _ _ _ (by omega) (by simp only [List.length_nil] at hfuel; omega)]
      simp [advanced, quote_run_cons_quote, quote_run_zero]
    | cons c s1 =>
      simp only [List.length_cons] at hfuel
      by_cases hc : c = 34
      · subst hc
        cases s1 with
        | nil => simp at hlast
        | cons d s2 =>
          simp only [List.length_cons] at hfuel
          by_cases hd : d = 34
          · subst hd
            cases s2 with
            | nil => simp at hlast
            | cons e s3 =>
              simp only [List.length_cons] at hfuel
              have he : e ≠ 34 := by
                rintro rfl
                exact hno ⟨[], s3, rfl⟩
              obtain ⟨n', hn'⟩ := ih (e :: s3).length (by simp only [List.length_cons]; omega)
                (e :: s3) rfl f rest (p + 2) t (some p) (n + 1) sym
                (fun x hx => hchars x (List.mem_cons_of_mem _ (List.mem_cons_of_mem _ hx)))
                (not_infix_tail _ _ (not_infix_tail _ _ hno))
                (getLast_tail _ _ _ (getLast_tail _ _ _ hlast))
                (by simp only [List.length_cons]; omega)
              refine ⟨n', ?_⟩
              rw [string_content_loop]
              simp only [List.cons_append, lookahead_cons, if_true, Bool.not_true,
                Bool.false_eq_true, if_false, mark_end_mk]
              rw [quote_loop_eq _ _ _ (by omega) (by omega)]
              have hq : quote_run (3 - 0) (34 :: 34 :: e :: (s3 ++ 34 :: 34 :: 34 :: rest)) = 2 := by
                rw [show 3 - 0 = 1 + 1 + 1 from rfl, quote_run_cons_quote, quote_run_cons_quote,
                  quote_run_cons_other _ _ _ he]
              simp only [hq, advanced, List.drop_succ_cons, List.drop_zero, Nat.zero_add,
                show (2 : Nat) ≠ 3 from by decide, if_false]
              rw [← List.cons_append, hn']
              simp only [List.length_cons]
              congr 3 <;> first | omega | (congr 1; omega)
          · obtain ⟨n', hn'⟩ := ih (d :: s2).length (by simp only [List.length_cons]; omega)
              (d :: s2) rfl f rest (p + 1) t (some p) (n + 1) sym
              (fun x hx => hchars x (List.mem_cons_of_mem _ hx))
              (not_infix_tail _ _ hno) (getLast_tail _ _ _ hlast)
              (by simp only [List.length_cons]; omega)
            refine ⟨n', ?_⟩
            rw [string_content_loop]
            simp only [List.cons_append, lookahead_cons, if_true, Bool.not_true,
              Bool.false_eq_true, if_false, mark_end_mk]
            rw [quote_loop_eq _ _ _ (by omega) (by omega)]
            have hq : quote_run (3 - 0) (34 :: d :: (s2 ++ 34 :: 34 :: 34 :: rest)) = 1 := by
              rw [show 3 - 0 = 2 + 1 from rfl, quote_run_cons_quote,
                quote_run_cons_other _ _ _ hd]
            simp only [hq, advanced, List.drop_succ_cons, List.drop_zero, Nat.zero_add,
              show (1 : Nat) ≠ 3 from by decide, if_false]
            rw [← List.cons_append, hn']
            simp only [List.length_cons]
            congr 3 <;> first | omega | (congr 1; omega)
      · obtain ⟨h36, h92, h0⟩ := hchars c (List.mem_cons_self c s1)
        have hlast1 : s1.getLast? ≠ some 34 := by
          cases s1 with
          | nil => simp
          | cons d s2 => exact getLast_tail _ _ _ hlast
        obtain ⟨n', hn'⟩ := ih s1.length (by simp only [List.length_cons]; omega) s1 rfl f rest (p + 1) t m n sym
          (fun x hx => hchars x (List.mem_cons_of_mem _ hx))
          (not_infix_tail _ _ hno) hlast1 (by omega)
        refine ⟨n', ?_⟩
        rw [string_content_loop]
        simp only [List.cons_append, lookahead_cons, hc, h36, h92, h0, if_false, advance_cons]
        rw [hn']
        simp only [List.length_cons]
        congr 3 <;> first | omega | (congr 1; omega)

/-- C5: for every non-empty `body` that neither begins nor ends with `'"'`, has no
three consecutive `'"'` and no backslash, `'$'` or NUL, every hint set with a
triple content kind valid, `STRING_CONTENT` and `IMMEDIATE_PAREN` not valid
(`STRING_CONTENT_NO_INTERPOLATION` may be either), and a step budget of at least
the length of `body` plus 5: the scan of `body` followed by `"""` and any `rest`
succeeds with the triple content kind (`TRIPLE_STRING_CONTENT` if valid, else the
non-interpolating one); the token end (last mark-end) is exactly at the end of
`body`, the token starts where the cursor was, and the cursor has moved past the
three closing quotes. -/
theorem triple_content_until_closing_run (iswspace : Nat → Bool) (fuel : Nat)
    (lexer : TSLexer) (valid_symbols : TokenType → Bool) (body rest : List Nat)
    (hne : body ≠ [])
    (hhead : body.head? ≠ some 34)
    (hlast : body.getLast? ≠ some 34)
    (hno : ¬ [34, 34, 34] <:+: body)
    (hchars : ∀ c ∈ body, c ≠ 36 ∧ c ≠ 92 ∧ c ≠ 0)
    (htriple : valid_symbols TRIPLE_STRING_CONTENT = true ∨
      valid_symbols TRIPLE_STRING_CONTENT_NO_INTERPOLATION = true)
    (hs1 : valid_symbols STRING_CONTENT = false)
    (hp : valid_symbols IMMEDIATE_PAREN = false)
    (hin : lexer.input = body ++ 34 :: 34 :: 34 :: rest)
    (hfuel : body.length + 5 ≤ fuel) :
    ∃ lexer', tree_sitter_julia_external_scanner_scan iswspace fuel lexer valid_symbols =
        some (true, lexer') ∧
      lexer'.result_symbol = (if valid_symbols TRIPLE_STRING_CONTENT = true
        then TRIPLE_STRING_CONTENT else TRIPLE_STRING_CONTENT_NO_INTERPOLATION) ∧
      lexer'.mark = some (lexer.pos + body.length) ∧
      lexer'.token_end = lexer.pos + body.length ∧
      lexer'.token_start = lexer.token_start ∧
      lexer'.pos = lexer.pos + body.length + 3 ∧
      lexer'.input = rest := by
  obtain ⟨input, p, t, m, n, s⟩ := lexer
  simp only at hin
  subst hin
  have hany : (valid_symbols STRING_CONTENT || valid_symbols STRING_CONTENT_NO_INTERPOLATION ||
      valid_symbols TRIPLE_STRING_CONTENT ||
      valid_symbols TRIPLE_STRING_CONTENT_NO_INTERPOLATION) = true := by
    rcases htriple with h | h <;> simp [h]
  have hts : (valid_symbols TRIPLE_STRING_CONTENT ||
      valid_symbols TRIPLE_STRING_CONTENT_NO_INTERPOLATION) = true := by
    rcases htriple with h | h <;> simp [h]
  rw [scan_content iswspace fuel _ valid_symbols hp hany]
  obtain ⟨c, cs, rfl⟩ := List.exists_cons_of_ne_nil hne
  have hc := hchars c (List.mem_cons_self c cs)
  have hc34 : c ≠ 34 := fun h => hhead (by rw [h]; rfl)
  rw [string_content_not_quote _ _ _ (by rw [lookahead_append_cons]; exact hc34)]
  rw [if_neg (by rw [lookahead_append_cons]; exact fun h => hc.1 h.2)]
  rw [hts, hs1, Bool.false_or]
  obtain ⟨n', hn'⟩ := string_content_loop_triple (valid_symbols TRIPLE_STRING_CONTENT)
    (c :: cs) fuel rest p t m n s hchars hno hlast hfuel
  rw [hn']
  exact ⟨_, rfl, rfl, rfl, rfl, rfl, rfl, rfl⟩

/-- C5 witness: the body `a"b` of the text `"""a"b"""`: the lone quote is content,
the token ends before the closing run. -/
theorem triple_content_until_closing_run_witness :
    ∃ lexer', tree_sitter_julia_external_scanner_scan iswspace_C 8
        (TSLexer.mk [97, 34, 98, 34, 34, 34] 3 3 none 0 TRIPLE_STRING_DELIM)
        (hints [TRIPLE_STRING_CONTENT]) = some (true, lexer') ∧
      lexer'.result_symbol = TRIPLE_STRING_CONTENT ∧
      lexer'.mark = some 6 ∧ lexer'.token_end = 6 ∧ lexer'.token_start = 3 ∧
      lexer'.pos = 9 ∧ lexer'.input = [] :=
  triple_content_until_closing_run iswspace_C 8
    (TSLexer.mk [97, 34, 98, 34, 34, 34] 3 3 none 0 TRIPLE_STRING_DELIM)
    (hints [TRIPLE_STRING_CONTENT]) [97, 34, 98] [] (by decide) (by decide) (by decide)
    (by decide) (by decide) (Or.inl rfl) rfl rfl rfl (by decide)

/-! ## The white-space loop and the block-comment loop -/

theorem whitespace_loop_skips (iswspace : Nat → Bool) (w : List Nat)
    (hw : ∀ c ∈ w, iswspace c = true) (tail : List Nat)
    (htail : iswspace (tail.headD 0) = false) (fuel : Nat)
    (p t : Nat) (m : Option Nat) (n : Nat) (s : TokenType) :
    whitespace_loop iswspace (fuel + w.length + 1) (TSLexer.mk (w ++ tail) p t m n s) =
      some (TSLexer.mk tail (p + w.length) (if w = [] then t else p + w.length) m n s) := by
  induction w generalizing p t with
  | nil =>
    rw [whitespace_loop]
    simp only [List.nil_append, TSLexer.lookahead, htail, Bool.false_eq_true, if_false,
      List.length_nil, Nat.add_zero, if_true]
  | cons c cs ih =>
    have hc := hw c (List.mem_cons_self c cs)
    have hlen : fuel + (c :: cs).length + 1 = (fuel + cs.length + 1) + 1 := by
      simp only [List.length_cons]; omega
    rw [hlen, whitespace_loop]
    simp only [List.cons_append, lookahead_cons, hc, if_true, advance_skip_cons]
    rw [ih (fun d hd => hw d (List.mem_cons_of_mem c hd))]
    have hp : p + 1 + cs.length = p + (c :: cs).length := by
      simp only [List.length_cons]; omega
    by_cases hcs : cs = []
    · subst hcs
      simp only [List.length_nil, Nat.add_zero, if_true, List.length_cons, Nat.zero_add,
        reduceCtorEq, if_false]
    · simp only [hcs, if_false, hp, reduceCtorEq]

theorem block_comment_loop_filler (f : List Nat) (hf : filler f) (fuel : Nat)
    (tail : List Nat) (p t : Nat) (m : Option Nat) (n : Nat) (s : TokenType) (d : Nat) :
    block_comment_loop (fuel + f.length) (TSLexer.mk (f ++ tail) p t m n s) false d =
      block_comment_loop fuel (TSLexer.mk tail (p + f.length) t m n s) false d := by
  induction f generalizing p with
  | nil => rfl
  | cons c cs ih =>
    obtain ⟨h35, h61, h0⟩ := hf c (List.mem_cons_self c cs)
    have hlen : fuel + (c :: cs).length = (fuel + cs.length) + 1 := by
      simp only [List.length_cons]; omega
    rw [hlen, block_comment_loop]
    simp only [List.cons_append, lookahead_cons, h35, h61, h0, if_false, advance_cons]
    rw [ih (fun x hx => hf x (List.mem_cons_of_mem c hx))]
    simp only [List.length_cons]
    congr 2
    omega

theorem block_comment_loop_openers (fs : List (List Nat)) (hfs : ∀ f ∈ fs, filler f)
    (fuel : Nat) (tail : List Nat) (p t : Nat) (m : Option Nat) (n : Nat) (s : TokenType)
    (d : Nat) (hd : d < UINT_RANGE) :
    block_comment_loop (fuel + (openers fs).length) (TSLexer.mk (openers fs ++ tail) p t m n s)
        false d =
      block_comment_loop (fuel + fs.length)
        (TSLexer.mk tail (p + (openers fs).length) t m n s) false
        ((d + fs.length) % UINT_RANGE) := by
  induction fs generalizing p d fuel with
  | nil =>
    simp only [openers, List.length_nil, Nat.add_zero, List.nil_append, Nat.mod_eq_of_lt hd]
  | cons f fs ih =>
    have hlen : fuel + (openers (f :: fs)).length =
        ((fuel + 1 + (openers fs).length) + f.length) + 1 := by
      simp only [openers, List.length_cons, List.length_append]; omega
    rw [hlen, block_comment_loop]
    simp only [openers, List.cons_append, lookahead_cons, if_true, if_false, advance_cons,
      show (35 : Nat) ≠ 0 from by decide, show (35 : Nat) ≠ 61 from by decide,
      Bool.false_eq_true, List.append_assoc]
    rw [block_comment_loop_filler f (hfs f (List.mem_cons_self f fs))]
    rw [ih (fun x hx => hfs x (List.mem_cons_of_mem f hx)) _ _ _ (Nat.mod_lt _ (by decide))]
    simp only [List.length_cons, List.length_append, Nat.add_mod_mod, Nat.mod_add_mod]
    have e1 : fuel + 1 + fs.length = fuel + (fs.length + 1) := by omega
    have e2 : p + 1 + 1 + f.length + (openers fs).length =
        p + (f.length + (openers fs).length + 1 + 1) := by omega
    have e3 : d + 1 + fs.length = d + (fs.length + 1) := by omega
    rw [e1, e2, e3]

/-- One closing marker `=#` met with the after-equals flag clear: two iterations,
after which the depth is one less (as an `unsigned`), and the loop ends with
success if that is 0. -/
theorem block_comment_loop_closer (fuel : Nat) (tail : List Nat) (p t : Nat)
    (m : Option Nat) (n : Nat) (s : TokenType) (d : Nat) :
    block_comment_loop (fuel + 2) (TSLexer.mk (61 :: 35 :: tail) p t m n s) false d =
      if (d + UINT_RANGE - 1) % UINT_RANGE = 0 then
        some (true, TSLexer.mk tail (p + 2) t m n BLOCK_COMMENT)
      else
        block_comment_loop fuel (TSLexer.mk tail (p + 2) t m n s) false
          ((d + UINT_RANGE - 1) % UINT_RANGE) := by
  rw [show fuel + 2 = (fuel + 1) + 1 from rfl, block_comment_loop]
  simp only [lookahead_cons, show (61 : Nat) ≠ 0 from by decide, if_false, if_true,
    advance_cons]
  rw [block_comment_loop]
  simp only [lookahead_cons, show (35 : Nat) ≠ 0 from by decide,
    show (35 : Nat) ≠ 61 from by decide, if_false, if_true, advance_cons]

theorem block_comment_loop_closers (gs : List (List Nat)) (hgs : ∀ g ∈ gs, filler g)
    (fuel : Nat) (rest : List Nat) (p t : Nat) (m : Option Nat) (n : Nat) (s : TokenType)
    (d : Nat) (hd : d = (gs.length + 1) % UINT_RANGE) (hbound : gs.length + 1 ≤ UINT_RANGE)
    (hfuel : (closers gs).length + 2 ≤ fuel) :
    block_comment_loop fuel (TSLexer.mk (closers gs ++ 61 :: 35 :: rest) p t m n s) false d =
      some (true, TSLexer.mk rest (p + (closers gs).length + 2) t m n BLOCK_COMMENT) := by
  induction gs generalizing p d fuel with
  | nil =>
    obtain ⟨f, rfl⟩ : ∃ f, fuel = f + 2 := ⟨fuel - 2, by omega⟩
    simp only [closers, List.nil_append, List.length_nil, Nat.add_zero]
    rw [block_comment_loop_closer]
    have h0 : (d + UINT_RANGE - 1) % UINT_RANGE = 0 := by
      subst hd
      simp only [UINT_RANGE, List.length_nil]
      decide
    rw [if_pos h0]
  | cons g gs ih =>
    have hbound' : gs.length + 2 ≤ UINT_RANGE := hbound
    have hd0 : d = (gs.length + 2) % UINT_RANGE := hd
    clear hbound hd
    rw [closers] at hfuel ⊢
    simp only [List.length_cons, List.length_append] at hfuel
    obtain ⟨f, rfl⟩ : ∃ f, fuel = ((f + g.length) + 2) := ⟨fuel - g.length - 2, by omega⟩
    simp only [List.cons_append, List.append_assoc]
    rw [block_comment_loop_closer]
    have hd' : (d + UINT_RANGE - 1) % UINT_RANGE = (gs.length + 1) % UINT_RANGE := by
      subst hd0
      unfold UINT_RANGE at hbound' ⊢
      omega
    have hne : (d + UINT_RANGE - 1) % UINT_RANGE ≠ 0 := by
      rw [hd']
      unfold UINT_RANGE at hbound' ⊢
      omega
    rw [if_neg hne, block_comment_loop_filler g (hgs g (List.mem_cons_self g gs))]
    rw [ih (fun x hx => hgs x (List.mem_cons_of_mem g hx)) _ _ _ hd' (by omega) (by omega)]
    have e : p + 2 + g.length + (closers gs).length + 2 =
        p + (61 :: 35 :: (g ++ closers gs)).length + 2 := by
      simp only [List.length_cons, List.length_append]; omega
    rw [e]

/-- With no content kind valid, the scan of optional white space followed by `#=`
is the block-comment loop started after the opener at depth 1. -/
theorem scan_block_comment_entry (iswspace : Nat → Bool) (fuel : Nat)
    (valid_symbols : TokenType → Bool) (w tail : List Nat)
    (p t : Nat) (m : Option Nat) (n : Nat) (s : TokenType)
    (hw : ∀ c ∈ w, iswspace c = true)
    (h35 : iswspace 35 = false)
    (h40 : w = [] ∨ iswspace 40 = false)
    (hc1 : valid_symbols STRING_CONTENT = false)
    (hc2 : valid_symbols STRING_CONTENT_NO_INTERPOLATION = false)
    (hc3 : valid_symbols TRIPLE_STRING_CONTENT = false)
    (hc4 : valid_symbols TRIPLE_STRING_CONTENT_NO_INTERPOLATION = false)
    (hfuel : w.length + 1 ≤ fuel) :
    tree_sitter_julia_external_scanner_scan iswspace fuel
        (TSLexer.mk (w ++ 35 :: 61 :: tail) p t m n s) valid_symbols =
      block_comment_loop fuel
        (TSLexer.mk tail (p + w.length + 2) (if w = [] then t else p + w.length) m n s)
        false 1 := by
  have hla : (TSLexer.mk (w ++ 35 :: 61 :: tail) p t m n s).lookahead ≠ 40 := by
    cases w with
    | nil => simp
    | cons c cs =>
      simp only [List.cons_append, lookahead_cons]
      intro hc
      have := hw c (List.mem_cons_self c cs)
      rcases h40 with h40 | h40
      · exact List.cons_ne_nil c cs h40
      · rw [hc, h40] at this
        exact Bool.false_ne_true this
  unfold tree_sitter_julia_external_scanner_scan
  simp only [hla, false_and, if_false, hc1, hc2, hc3, hc4, Bool.or_self, Bool.false_eq_true]
  obtain ⟨f, rfl⟩ : ∃ f, fuel = f + w.length + 1 := ⟨fuel - w.length - 1, by omega⟩
  rw [whitespace_loop_skips iswspace w hw (35 :: 61 :: tail) (by simpa using h35)]
  simp only [lookahead_cons, if_true, advance_cons, ne_eq, not_true_eq_false, if_false]

/-! ## C8: nested block comments -/

/-- C8 (amended): for fillers `f1 .. fn` and `g1 .. g(n-1)` without `'#'`, `'='` or
NUL, with `1 ≤ n ≤ 2^32` (the range of the `unsigned` depth counter), no content
kind valid, and a step budget of at least the length of the comment: the scan of
`#= f1 ... #= fn =# g1 ... g(n-1) =#` followed by any `rest` succeeds with
`BLOCK_COMMENT`, no mark-end call, and the cursor right after the `n`-th `=#`:
the unread input is exactly `rest`. So for a cursor handed over with no mark, the
token runs from the entry position to the end of the comment. -/
theorem nested_block_comment (iswspace : Nat → Bool) (fuel : Nat) (lexer : TSLexer)
    (valid_symbols : TokenType → Bool) (fs gs : List (List Nat)) (rest : List Nat)
    (hfs : ∀ f ∈ fs, filler f) (hgs : ∀ g ∈ gs, filler g)
    (hn : fs.length = gs.length + 1)
    (hbound : fs.length ≤ UINT_RANGE)
    (h35 : iswspace 35 = false)
    (hc1 : valid_symbols STRING_CONTENT = false)
    (hc2 : valid_symbols STRING_CONTENT_NO_INTERPOLATION = false)
    (hc3 : valid_symbols TRIPLE_STRING_CONTENT = false)
    (hc4 : valid_symbols TRIPLE_STRING_CONTENT_NO_INTERPOLATION = false)
    (hin : lexer.input = openers fs ++ closers gs ++ 61 :: 35 :: rest)
    (hfuel : (openers fs ++ closers gs).length + 2 ≤ fuel) :
    ∃ lexer', tree_sitter_julia_external_scanner_scan iswspace fuel lexer valid_symbols =
        some (true, lexer') ∧
      lexer' = { lexer with
        input := rest
        pos := lexer.pos + (openers fs ++ closers gs).length + 2
        result_symbol := BLOCK_COMMENT } ∧
      (lexer.mark = none →
        lexer'.token_end = lexer.pos + (openers fs ++ closers gs).length + 2 ∧
        lexer'.token_start = lexer.token_start) := by
  obtain ⟨input, p, t, m, n, s⟩ := lexer
  simp only at hin
  subst hin
  refine ⟨_, ?_, rfl, fun hm => ⟨by simp only at hm; subst hm; rfl, rfl⟩⟩
  cases fs with
  | nil => simp at hn
  | cons f1 fs1 =>
    have hlen : gs.length = fs1.length := by
      simp only [List.length_cons] at hn; omega
    have hb : gs.length + 1 ≤ UINT_RANGE := by
      rw [hlen]; exact hbound
    simp only [openers, List.length_cons, List.length_append] at hfuel
    have hentry := scan_block_comment_entry iswspace fuel valid_symbols []
      ((f1 ++ openers fs1) ++ closers gs ++ 61 :: 35 :: rest) p t m n s
      (fun c hc => absurd hc (List.not_mem_nil c)) h35 (Or.inl rfl) hc1 hc2 hc3 hc4 (by
        simp only [List.length_nil]; omega)
    simp only [List.nil_append, List.length_nil, Nat.add_zero, if_true] at hentry
    simp only [openers, List.cons_append]
    rw [hentry]
    obtain ⟨F, rfl⟩ : ∃ F, fuel = (F + (openers fs1).length) + f1.length :=
      ⟨fuel - (openers fs1).length - f1.length, by omega⟩
    simp only [List.append_assoc]
    rw [block_comment_loop_filler f1 (hfs f1 (List.mem_cons_self f1 fs1))]
    rw [block_comment_loop_openers fs1 (fun x hx => hfs x (List.mem_cons_of_mem f1 hx))
      _ _ _ _ _ _ _ 1 (by decide)]
    rw [block_comment_loop_closers gs hgs _ rest _ _ _ _ _ _
      (by rw [hlen, Nat.add_comm]) hb (by omega)]
    have e : p + 2 + f1.length + (openers fs1).length + (closers gs).length + 2 =
        p + (35 :: 61 :: (f1 ++ (openers fs1 ++ closers gs))).length + 2 := by
      simp only [List.length_cons, List.length_append]; omega
    rw [e]

/-- C8 witness (`n = 2`): `#= outer #= inner =# still outer =#` is one
`BLOCK_COMMENT` token that spans the whole text of 35 characters. -/
theorem nested_block_comment_witness :
    ∃ lexer', tree_sitter_julia_external_scanner_scan iswspace_C 37
        (start [35, 61, 32, 111, 117, 116, 101, 114, 32, 35, 61, 32, 105, 110, 110, 101, 114,
          32, 61, 35, 32, 115, 116, 105, 108, 108, 32, 111, 117, 116, 101, 114, 32, 61, 35])
        (hints [BLOCK_COMMENT]) = some (true, lexer') ∧
      lexer' = TSLexer.mk [] 35 0 none 0 BLOCK_COMMENT ∧
      ((none : Option Nat) = none → lexer'.token_end = 35 ∧ lexer'.token_start = 0) :=
  nested_block_comment iswspace_C 37
    (start [35, 61, 32, 111, 117, 116, 101, 114, 32, 35, 61, 32, 105, 110, 110, 101, 114,
      32, 61, 35, 32, 115, 116, 105, 108, 108, 32, 111, 117, 116, 101, 114, 32, 61, 35])
    (hints [BLOCK_COMMENT])
    [[32, 111, 117, 116, 101, 114, 32], [32, 105, 110, 110, 101, 114, 32]]
    [[32, 115, 116, 105, 108, 108, 32, 111, 117, 116, 101, 114, 32]] []
    (by decide) (by decide) rfl (by decide) rfl rfl rfl rfl rfl rfl (by decide)

theorem openers_replicate_length (k : Nat) :
    (openers (List.replicate k [])).length = 2 * k := by
  induction k with
  | zero => rfl
  | succ k ih =>
    rw [List.replicate_succ, openers]
    simp only [List.nil_append, List.length_cons, ih]
    omega

theorem closers_replicate_length (k : Nat) :
    (closers (List.replicate k [])).length = 2 * k := by
  induction k with
  | zero => rfl
  | succ k ih =>
    rw [List.replicate_succ, closers]
    simp only [List.nil_append, List.length_cons, ih]
    omega

theorem filler_replicate_nil (k : Nat) : ∀ f ∈ List.replicate k ([] : List Nat), filler f := by
  intro f hf
  rw [List.eq_of_mem_replicate hf]
  intro c hc
  exact absurd hc (List.not_mem_nil c)

/-- When the number `k` of nested openers is a multiple of the counter's range, the
depth counter is back at 1 after them, and the first `=#` ends the token. -/
theorem block_comment_depth_wraps (iswspace : Nat → Bool) (fuel : Nat)
    (valid_symbols : TokenType → Bool) (k : Nat) (tail : List Nat)
    (p t : Nat) (m : Option Nat) (n : Nat) (s : TokenType)
    (hk : (1 + k) % UINT_RANGE = 1)
    (h35 : iswspace 35 = false)
    (hc1 : valid_symbols STRING_CONTENT = false)
    (hc2 : valid_symbols STRING_CONTENT_NO_INTERPOLATION = false)
    (hc3 : valid_symbols TRIPLE_STRING_CONTENT = false)
    (hc4 : valid_symbols TRIPLE_STRING_CONTENT_NO_INTERPOLATION = false)
    (hfuel : 2 * k + 2 ≤ fuel) :
    tree_sitter_julia_external_scanner_scan iswspace fuel
        (TSLexer.mk (openers (List.replicate (k + 1) []) ++ 61 :: 35 :: tail) p t m n s)
        valid_symbols =
      some (true, TSLexer.mk tail (p + 2 * k + 4) t m n BLOCK_COMMENT) := by
  have hentry := scan_block_comment_entry iswspace fuel valid_symbols []
    (openers (List.replicate k []) ++ 61 :: 35 :: tail) p t m n s
    (fun c hc => absurd hc (List.not_mem_nil c)) h35 (Or.inl rfl) hc1 hc2 hc3 hc4 (by
      simp only [List.length_nil]; omega)
  simp only [List.nil_append, List.length_nil, Nat.add_zero, if_true] at hentry
  rw [List.replicate_succ, openers, List.nil_append, List.cons_append, List.cons_append, hentry]
  obtain ⟨F, rfl⟩ : ∃ F, fuel = (F + 2) + (openers (List.replicate k [])).length :=
    ⟨fuel - 2 - (openers (List.replicate k [])).length, by
      rw [openers_replicate_length]; omega⟩
  rw [block_comment_loop_openers _ (filler_replicate_nil k) _ _ _ _ _ _ _ 1 (by decide)]
  rw [List.length_replicate, hk]
  rw [show F + 2 + k = (F + k) + 2 from by omega, block_comment_loop_closer]
  rw [if_pos (by unfold UINT_RANGE; decide), openers_replicate_length]
  rw [show p + 2 + 2 * k + 2 = p + 2 * k + 4 from by omega]

theorem closers_replicate_pos (k : Nat) (hk : 0 < k) :
    closers (List.replicate k []) = 61 :: 35 :: closers (List.replicate (k - 1) []) := by
  obtain ⟨j, rfl⟩ : ∃ j, k = j + 1 := ⟨k - 1, by omega⟩
  rw [List.replicate_succ, closers, List.nil_append, Nat.add_sub_cancel]

/-- C8 (as stated, refuted): with `n = 2^32 + 1` and all fillers empty, the depth
counter (a C `unsigned`) is back at 1 after the `2^32` nested openers, so the scan
succeeds at the first `=#`: the cursor is at position `2^33 + 4`, short of the
end of the comment at `2^34 + 4`. -/
theorem nested_block_comment_counterexample :
    ∃ lexer', tree_sitter_julia_external_scanner_scan iswspace_C (2 ^ 34 + 6)
        (start (openers (List.replicate (2 ^ 32 + 1) []) ++
          closers (List.replicate (2 ^ 32) []) ++ [61, 35]))
        (hints [BLOCK_COMMENT]) = some (true, lexer') ∧
      lexer'.pos = 2 ^ 33 + 4 ∧
      (openers (List.replicate (2 ^ 32 + 1) []) ++
          closers (List.replicate (2 ^ 32) [])).length + 2 = 2 ^ 34 + 4 := by
  refine ⟨TSLexer.mk (closers (List.replicate (2 ^ 32 - 1) []) ++ [61, 35])
    (0 + 2 * 2 ^ 32 + 4) 0 none 0 BLOCK_COMMENT, ?_, ?_, ?_⟩
  · rw [closers_replicate_pos (2 ^ 32) (by norm_num), List.append_assoc, List.cons_append,
      List.cons_append]
    exact block_comment_depth_wraps iswspace_C (2 ^ 34 + 6) (hints [BLOCK_COMMENT]) (2 ^ 32)
      _ 0 0 none 0 BLOCK_COMMENT (by unfold UINT_RANGE; norm_num) rfl rfl rfl rfl rfl
      (by norm_num)
  · show 0 + 2 * 2 ^ 32 + 4 = 2 ^ 33 + 4
    norm_num
  · rw [List.length_append, openers_replicate_length, closers_replicate_length]
    norm_num

/-! ## C9: an unterminated block comment -/

theorem not_infix_of_cons {l : List Nat} (c : Nat) (s : List Nat) (h : ¬ l <:+: c :: s) :
    ¬ l <:+: s := fun hs =>
  h (List.IsInfix.trans hs (List.suffix_cons c s).isInfix)

/-- Over a text without the two characters `=#`, the block-comment loop returns
failure whatever the depth, and writes neither the result kind nor a mark. -/
theorem block_comment_loop_unterminated (fuel : Nat) (text : List Nat) (p t : Nat)
    (m : Option Nat) (n : Nat) (s : TokenType) (after_eq : Bool) (d : Nat)
    (hno : ¬ [61, 35] <:+: text)
    (hae : after_eq = true → text.head? ≠ some 35)
    (hfuel : text.length + 1 ≤ fuel) :
    ∃ lexer', block_comment_loop fuel (TSLexer.mk text p t m n s) after_eq d =
        some (false, lexer') ∧
      lexer'.result_symbol = s ∧ lexer'.mark = m ∧ lexer'.mark_calls = n := by
  induction fuel generalizing text p after_eq d with
  | zero => omega
  | succ f ih =>
    rw [block_comment_loop]
    cases text with
    | nil => exact ⟨TSLexer.mk [] p t m n s, by rw [lookahead_nil, if_pos rfl], rfl, rfl, rfl⟩
    | cons c text1 =>
      simp only [List.length_cons] at hfuel
      simp only [lookahead_cons, advance_cons]
      by_cases h0 : c = 0
      · exact ⟨TSLexer.mk (c :: text1) p t m n s, by rw [if_pos h0], rfl, rfl, rfl⟩
      · rw [if_neg h0]
        by_cases h61 : c = 61
        · subst h61
          rw [if_pos rfl]
          refine ih text1 _ _ _ (not_infix_of_cons _ _ hno) ?_ (by omega)
          intro _ hhead
          cases text1 with
          | nil => simp at hhead
          | cons e text2 =>
            simp only [List.head?_cons, Option.some.injEq] at hhead
            subst hhead
            exact hno ⟨[], text2, rfl⟩
        · rw [if_neg h61]
          by_cases h35 : c = 35
          · subst h35
            have hfalse : after_eq = false := by
              cases after_eq
              · rfl
              · exact absurd rfl (hae rfl)
            subst hfalse
            simp only [if_true, Bool.false_eq_true, if_false]
            cases text1 with
            | nil =>
              simp only [lookahead_nil, show (0 : Nat) ≠ 61 from by decide, if_false]
              exact ih [] _ _ _ (not_infix_of_cons _ _ hno) (fun h => by simp at h) (by omega)
            | cons e text2 =>
              simp only [lookahead_cons, advance_cons]
              simp only [List.length_cons] at hfuel
              by_cases he : e = 61
              · rw [if_pos he]
                exact ih text2 _ _ _ (not_infix_of_cons _ _ (not_infix_of_cons _ _ hno))
                  (fun h => by simp at h) (by omega)
              · rw [if_neg he]
                exact ih (e :: text2) _ _ _ (not_infix_of_cons _ _ hno)
                  (fun h => by simp at h) (by simp only [List.length_cons]; omega)
          · rw [if_neg h35]
            exact ih text1 _ _ _ (not_infix_of_cons _ _ hno) (fun h => by simp at h) (by omega)

/-- C9: for every input made of white space `w` (possibly empty), the opener `#=`
and a text in which the two characters `=#` do not occur, scanned with no content
kind valid and a step budget of at least the input's length: the scan returns
failure, and has not written `result_symbol` nor called mark-end. (`iswspace` is
any classifier for which neither `'#'` nor `'('` is white space.) -/
theorem unterminated_block_comment (iswspace : Nat → Bool) (fuel : Nat) (lexer : TSLexer)
    (valid_symbols : TokenType → Bool) (w text : List Nat)
    (hw : ∀ c ∈ w, iswspace c = true)
    (h35 : iswspace 35 = false)
    (h40 : iswspace 40 = false)
    (hno : ¬ [61, 35] <:+: text)
    (hc1 : valid_symbols STRING_CONTENT = false)
    (hc2 : valid_symbols STRING_CONTENT_NO_INTERPOLATION = false)
    (hc3 : valid_symbols TRIPLE_STRING_CONTENT = false)
    (hc4 : valid_symbols TRIPLE_STRING_CONTENT_NO_INTERPOLATION = false)
    (hin : lexer.input = w ++ 35 :: 61 :: text)
    (hfuel : lexer.input.length ≤ fuel) :
    ∃ lexer', tree_sitter_julia_external_scanner_scan iswspace fuel lexer valid_symbols =
        some (false, lexer') ∧
      lexer'.result_symbol = lexer.result_symbol ∧
      lexer'.mark = lexer.mark ∧ lexer'.mark_calls = lexer.mark_calls := by
  obtain ⟨input, p, t, m, n, s⟩ := lexer
  simp only at hin
  subst hin
  simp only [List.length_append, List.length_cons] at hfuel
  rw [scan_block_comment_entry iswspace fuel valid_symbols w text p t m n s hw h35
    (Or.inr h40) hc1 hc2 hc3 hc4 (by omega)]
  exact block_comment_loop_unterminated fuel text _ _ m n s false 1 hno
    (fun h => absurd h Bool.false_ne_true) (by omega)

/-- C9 witness: `#= unterminated` with only `BLOCK_COMMENT` valid fails. -/
theorem unterminated_block_comment_witness :
    ∃ lexer', tree_sitter_julia_external_scanner_scan iswspace_C 15
        (start [35, 61, 32, 117, 110, 116, 101, 114, 109, 105, 110, 97, 116, 101, 100])
        (hints [BLOCK_COMMENT]) = some (false, lexer') ∧
      lexer'.result_symbol = BLOCK_COMMENT ∧ lexer'.mark = none ∧ lexer'.mark_calls = 0 :=
  unterminated_block_comment iswspace_C 15
    (start [35, 61, 32, 117, 110, 116, 101, 114, 109, 105, 110, 97, 116, 101, 100])
    (hints [BLOCK_COMMENT]) [] [32, 117, 110, 116, 101, 114, 109, 105, 110, 97, 116, 101, 100]
    (by decide) rfl rfl (by decide) rfl rfl rfl rfl rfl (by decide)

/-! ## C10: content that runs into the end of input -/

/-- C10: for every hint set with a content kind valid and `IMMEDIATE_PAREN` not,
every `body` without `'"'`, `'$'`, backslash or NUL, and a step budget above the
length of `body`: the scan of `body` followed by end of input succeeds, writes
the content kind chosen by the two flags of `string_content` (one of the four
content kinds), and makes its one mark-end call at the end of input, after all of
`body`. An unterminated block comment has the opposite outcome: with the same
budget and any hint set with no content kind valid, the scan of `#=` followed by
the same `body`, when `=#` does not occur in it, returns failure. -/
theorem content_until_end_of_input (iswspace : Nat → Bool) (fuel : Nat) (lexer : TSLexer)
    (valid_symbols : TokenType → Bool) (body : List Nat)
    (hbody : ∀ c ∈ body, c ≠ 34 ∧ c ≠ 36 ∧ c ≠ 92 ∧ c ≠ 0)
    (hany : valid_symbols STRING_CONTENT = true ∨
      valid_symbols STRING_CONTENT_NO_INTERPOLATION = true ∨
      valid_symbols TRIPLE_STRING_CONTENT = true ∨
      valid_symbols TRIPLE_STRING_CONTENT_NO_INTERPOLATION = true)
    (hp : valid_symbols IMMEDIATE_PAREN = false)
    (hin : lexer.input = body)
    (hfuel : body.length + 1 ≤ fuel) :
    tree_sitter_julia_external_scanner_scan iswspace fuel lexer valid_symbols =
      some (true, { lexer with
        input := []
        pos := lexer.pos + body.length
        mark := some (lexer.pos + body.length)
        mark_calls := lexer.mark_calls + 1
        result_symbol := content_symbol
          (valid_symbols TRIPLE_STRING_CONTENT ||
            valid_symbols TRIPLE_STRING_CONTENT_NO_INTERPOLATION)
          (valid_symbols STRING_CONTENT || valid_symbols TRIPLE_STRING_CONTENT) }) ∧
    (content_symbol
          (valid_symbols TRIPLE_STRING_CONTENT ||
            valid_symbols TRIPLE_STRING_CONTENT_NO_INTERPOLATION)
          (valid_symbols STRING_CONTENT || valid_symbols TRIPLE_STRING_CONTENT) ∈
      [STRING_CONTENT, STRING_CONTENT_NO_INTERPOLATION, TRIPLE_STRING_CONTENT,
        TRIPLE_STRING_CONTENT_NO_INTERPOLATION]) ∧
    (∀ other_symbols : TokenType → Bool,
      other_symbols STRING_CONTENT = false →
      other_symbols STRING_CONTENT_NO_INTERPOLATION = false →
      other_symbols TRIPLE_STRING_CONTENT = false →
      other_symbols TRIPLE_STRING_CONTENT_NO_INTERPOLATION = false →
      iswspace 35 = false →
      ¬ [61, 35] <:+: body →
      ∃ lexer', tree_sitter_julia_external_scanner_scan iswspace fuel
        { lexer with input := 35 :: 61 :: body } other_symbols = some (false, lexer')) := by
  obtain ⟨input, p, t, m, n, s⟩ := lexer
  simp only at hin
  subst hin
  have hany' : (valid_symbols STRING_CONTENT || valid_symbols STRING_CONTENT_NO_INTERPOLATION ||
      valid_symbols TRIPLE_STRING_CONTENT ||
      valid_symbols TRIPLE_STRING_CONTENT_NO_INTERPOLATION) = true := by
    rcases hany with h | h | h | h <;> simp [h]
  refine ⟨?_, ?_, ?_⟩
  · rw [scan_content iswspace fuel _ valid_symbols hp hany']
    have hla : (TSLexer.mk input p t m n s).lookahead ≠ 34 ∧
        (TSLexer.mk input p t m n s).lookahead ≠ 36 := by
      cases input with
      | nil => exact ⟨by simp, by simp⟩
      | cons c cs =>
        have hc := hbody c (List.mem_cons_self c cs)
        exact ⟨hc.1, hc.2.1⟩
    rw [string_content_not_quote _ _ _ hla.1]
    rw [if_neg (fun h => hla.2 h.2)]
    obtain ⟨f, rfl⟩ : ∃ f, fuel = (f + 1) + input.length := ⟨fuel - input.length - 1, by omega⟩
    have := string_content_loop_plain
      (valid_symbols TRIPLE_STRING_CONTENT || valid_symbols TRIPLE_STRING_CONTENT_NO_INTERPOLATION)
      (valid_symbols STRING_CONTENT || valid_symbols TRIPLE_STRING_CONTENT)
      input (plain_of_ordinary _ _ hbody) (f + 1) [] p t m n s
    rw [List.append_nil] at this
    rw [this, string_content_loop]
    simp
  · unfold content_symbol
    split <;> split <;> simp
  · intro other_symbols hc1 hc2 hc3 hc4 h35 hno
    have hentry := scan_block_comment_entry iswspace fuel other_symbols [] input p t m n s
      (fun c hc => absurd hc (List.not_mem_nil c)) h35 (Or.inl rfl) hc1 hc2 hc3 hc4 (by
        simp only [List.length_nil]; omega)
    simp only [List.nil_append] at hentry
    rw [hentry]
    obtain ⟨lexer', h, _⟩ := block_comment_loop_unterminated fuel input _ _ m n s false 1 hno
      (fun h => absurd h Bool.false_ne_true) hfuel
    exact ⟨lexer', h⟩

/-- C10 witness: `abc` followed by end of input, with only `STRING_CONTENT` valid,
is a content token marked at the end of input. -/
theorem content_until_end_of_input_witness :
    tree_sitter_julia_external_scanner_scan iswspace_C 4
        (TSLexer.mk [97, 98, 99] 1 1 none 0 STRING_DELIM) (hints [STRING_CONTENT]) =
      some (true, TSLexer.mk [] 4 1 (some 4) 1 STRING_CONTENT) :=
  (content_until_end_of_input iswspace_C 4 (TSLexer.mk [97, 98, 99] 1 1 none 0 STRING_DELIM)
    (hints [STRING_CONTENT]) [97, 98, 99] (by decide) (Or.inl rfl) rfl rfl (by decide)).1


/-! ## C11: a dangling backslash at the end of input -/

/-- C11: for every hint set with a content kind valid and `IMMEDIATE_PAREN` not,
every `body` without `'"'`, `'$'`, backslash or NUL, and a step budget above the
length of `body`: the scan of `body` followed by one backslash and the end of
input succeeds, writes the content kind chosen by the two flags of
`string_content` (one of the four content kinds), and makes its one mark-end call
after the backslash, so the token covers `body` and the backslash. -/
theorem dangling_backslash_is_content (iswspace : Nat → Bool) (fuel : Nat) (lexer : TSLexer)
    (valid_symbols : TokenType → Bool) (body : List Nat)
    (hbody : ∀ c ∈ body, c ≠ 34 ∧ c ≠ 36 ∧ c ≠ 92 ∧ c ≠ 0)
    (hany : valid_symbols STRING_CONTENT = true ∨
      valid_symbols STRING_CONTENT_NO_INTERPOLATION = true ∨
      valid_symbols TRIPLE_STRING_CONTENT = true ∨
      valid_symbols TRIPLE_STRING_CONTENT_NO_INTERPOLATION = true)
    (hp : valid_symbols IMMEDIATE_PAREN = false)
    (hin : lexer.input = body ++ [92])
    (hfuel : body.length + 1 ≤ fuel) :
    tree_sitter_julia_external_scanner_scan iswspace fuel lexer valid_symbols =
      some (true, { lexer with
        input := []
        pos := lexer.pos + body.length + 1
        mark := some (lexer.pos + body.length + 1)
        mark_calls := lexer.mark_calls + 1
        result_symbol := content_symbol
          (valid_symbols TRIPLE_STRING_CONTENT ||
            valid_symbols TRIPLE_STRING_CONTENT_NO_INTERPOLATION)
          (valid_symbols STRING_CONTENT || valid_symbols TRIPLE_STRING_CONTENT) }) ∧
    (content_symbol
          (valid_symbols TRIPLE_STRING_CONTENT ||
            valid_symbols TRIPLE_STRING_CONTENT_NO_INTERPOLATION)
          (valid_symbols STRING_CONTENT || valid_symbols TRIPLE_STRING_CONTENT) ∈
      [STRING_CONTENT, STRING_CONTENT_NO_INTERPOLATION, TRIPLE_STRING_CONTENT,
        TRIPLE_STRING_CONTENT_NO_INTERPOLATION]) := by
  obtain ⟨input, p, t, m, n, s⟩ := lexer
  simp only at hin
  subst hin
  have hany' : (valid_symbols STRING_CONTENT || valid_symbols STRING_CONTENT_NO_INTERPOLATION ||
      valid_symbols TRIPLE_STRING_CONTENT ||
      valid_symbols TRIPLE_STRING_CONTENT_NO_INTERPOLATION) = true := by
    rcases hany with h | h | h | h <;> simp [h]
  refine ⟨?_, ?_⟩
  · rw [scan_content iswspace fuel _ valid_symbols hp hany']
    have hla : (TSLexer.mk (body ++ [92]) p t m n s).lookahead ≠ 34 ∧
        (TSLexer.mk (body ++ [92]) p t m n s).lookahead ≠ 36 := by
      cases body with
      | nil => exact ⟨by simp, by simp⟩
      | cons c cs =>
        have hc := hbody c (List.mem_cons_self c cs)
        exact ⟨hc.1, hc.2.1⟩
    rw [string_content_not_quote _ _ _ hla.1]
    rw [if_neg (fun h => hla.2 h.2)]
    obtain ⟨f, rfl⟩ : ∃ f, fuel = (f + 1) + body.length := ⟨fuel - body.length - 1, by omega⟩
    rw [string_content_loop_plain _ _ body (plain_of_ordinary _ _ hbody), string_content_loop]
    simp
  · unfold content_symbol
    split <;> split <;> simp

/-- C11 witness: `abc\` followed by the end of input, with only `STRING_CONTENT`
valid, is a content token of four characters. -/
theorem dangling_backslash_is_content_witness :
    tree_sitter_julia_external_scanner_scan iswspace_C 4
        (TSLexer.mk [97, 98, 99, 92] 1 1 none 0 STRING_DELIM) (hints [STRING_CONTENT]) =
      some (true, TSLexer.mk [] 5 1 (some 5) 1 STRING_CONTENT) :=
  (dangling_backslash_is_content iswspace_C 4
    (TSLexer.mk [97, 98, 99, 92] 1 1 none 0 STRING_DELIM)
    (hints [STRING_CONTENT]) [97, 98, 99] (by decide) (Or.inl rfl) rfl rfl (by decide)).1

/-! ## Runs of one or two quotes -/

theorem quote_run_replicate (cap r : Nat) (tail : List Nat) (htail : tail.head? ≠ some 34) :
    quote_run cap (List.replicate r 34 ++ tail) = min cap r := by
  induction r generalizing cap with
  | zero =>
    cases tail with
    | nil => simp [quote_run]
    | cons c cs =>
      have hc : c ≠ 34 := fun h => htail (by rw [h]; rfl)
      simp [quote_run_cons_other _ _ _ hc]
  | succ r ih =>
    cases cap with
    | zero => simp [quote_run_zero]
    | succ cap =>
      rw [List.replicate_succ, List.cons_append, quote_run_cons_quote, ih]
      omega

/-- The classifier `string_delim` at a run of exactly one or two quotes: the plain
delimiter if `STRING_DELIM` is valid, failure otherwise; either way the cursor has
advanced over the run and the one mark-end call was made after the first quote. -/
theorem string_delim_short_run (fuel r : Nat) (tail : List Nat) (p t : Nat) (m : Option Nat)
    (n : Nat) (s : TokenType) (valid_symbols : TokenType → Bool) (hfuel : 3 ≤ fuel)
    (hr1 : 1 ≤ r) (hr2 : r ≤ 2) (htail : tail.head? ≠ some 34) :
    string_delim fuel (TSLexer.mk (List.replicate r 34 ++ tail) p t m n s) valid_symbols =
      if valid_symbols STRING_DELIM then
        some (true, TSLexer.mk tail (p + r) t (some (p + 1)) (n + 1) STRING_DELIM)
      else
        some (false, TSLexer.mk tail (p + r) t (some (p + 1)) (n + 1) s) := by
  obtain ⟨k, rfl⟩ : ∃ k, r = k + 1 := ⟨r - 1, by omega⟩
  rw [List.replicate_succ, List.cons_append, string_delim_at_quote _ _ _ _ _ _ _ _ hfuel]
  have hq : quote_run 2 (List.replicate k 34 ++ tail) = k := by
    rw [quote_run_replicate _ _ _ htail]; omega
  have hk : k < 2 := by omega
  have hdrop : List.drop k (List.replicate k 34 ++ tail) = tail := by
    rw [List.drop_append_of_le_length (by simp)]
    simp
  rw [hq, if_pos hk, hdrop, show p + 1 + k = p + (k + 1) from by omega]

/-- With no content kind valid, no immediate parenthesis to report, and a lookahead
that is neither white space nor `'#'`, the scan is `string_delim`. -/
theorem scan_delim_entry (iswspace : Nat → Bool) (fuel : Nat) (lexer : TSLexer)
    (valid_symbols : TokenType → Bool)
    (hc1 : valid_symbols STRING_CONTENT = false)
    (hc2 : valid_symbols STRING_CONTENT_NO_INTERPOLATION = false)
    (hc3 : valid_symbols TRIPLE_STRING_CONTENT = false)
    (hc4 : valid_symbols TRIPLE_STRING_CONTENT_NO_INTERPOLATION = false)
    (hparen : ¬ (lexer.lookahead = 40 ∧ valid_symbols IMMEDIATE_PAREN = true))
    (hws : iswspace lexer.lookahead = false)
    (h35 : lexer.lookahead ≠ 35)
    (hfuel : 1 ≤ fuel) :
    tree_sitter_julia_external_scanner_scan iswspace fuel lexer valid_symbols =
      string_delim fuel lexer valid_symbols := by
  obtain ⟨f, rfl⟩ : ∃ f, fuel = f + 1 := ⟨fuel - 1, by omega⟩
  unfold tree_sitter_julia_external_scanner_scan
  rw [if_neg hparen]
  simp only [hc1, hc2, hc3, hc4, Bool.or_self, Bool.false_eq_true, if_false, whitespace_loop, hws,
    h35]

theorem lookahead_replicate_quote (r : Nat) (tail : List Nat) (p t : Nat) (m : Option Nat)
    (n : Nat) (s : TokenType) (hr : 1 ≤ r) :
    (TSLexer.mk (List.replicate r 34 ++ tail) p t m n s).lookahead = 34 := by
  obtain ⟨k, rfl⟩ : ∃ k, r = k + 1 := ⟨r - 1, by omega⟩
  rfl

/-! ## C12: a short quote run when only the triple delimiter is valid -/

/-- C12 (as stated, refuted): on `"x` with only `TRIPLE_STRING_DELIM` valid the
scan returns failure, but the cursor it leaves is not the entry cursor: the quote
has been advanced over and mark-end has been called after it. -/
theorem short_run_refusal_counterexample :
    tree_sitter_julia_external_scanner_scan iswspace_C 3 (start [34, 120])
        (hints [TRIPLE_STRING_DELIM]) =
      some (false, TSLexer.mk [120] 1 0 (some 1) 1 BLOCK_COMMENT) ∧
    (TSLexer.mk [120] 1 0 (some 1) 1 BLOCK_COMMENT).pos ≠ (start [34, 120]).pos ∧
    (TSLexer.mk [120] 1 0 (some 1) 1 BLOCK_COMMENT).mark ≠ (start [34, 120]).mark :=
  ⟨rfl, by decide, by decide⟩

/-- C12 (amended): for every input that starts with a run of exactly one or two
`'"'` (then a non-quote character or the end of input), every hint set in which
`STRING_DELIM` and the four content kinds are not valid (so when
`TRIPLE_STRING_DELIM` is the only valid kind), and a step budget of at least 3:
the scan returns failure and writes no kind; the cursor it leaves has advanced
over the whole run, and mark-end has been called once, after the first quote. -/
theorem short_run_refusal (iswspace : Nat → Bool) (fuel : Nat) (lexer : TSLexer)
    (valid_symbols : TokenType → Bool) (r : Nat) (tail : List Nat)
    (hr1 : 1 ≤ r) (hr2 : r ≤ 2) (htail : tail.head? ≠ some 34)
    (hws : iswspace 34 = false)
    (hsd : valid_symbols STRING_DELIM = false)
    (hc1 : valid_symbols STRING_CONTENT = false)
    (hc2 : valid_symbols STRING_CONTENT_NO_INTERPOLATION = false)
    (hc3 : valid_symbols TRIPLE_STRING_CONTENT = false)
    (hc4 : valid_symbols TRIPLE_STRING_CONTENT_NO_INTERPOLATION = false)
    (hin : lexer.input = List.replicate r 34 ++ tail)
    (hfuel : 3 ≤ fuel) :
    tree_sitter_julia_external_scanner_scan iswspace fuel lexer valid_symbols =
      some (false, { lexer with
        input := tail
        pos := lexer.pos + r
        mark := some (lexer.pos + 1)
        mark_calls := lexer.mark_calls + 1 }) := by
  obtain ⟨input, p, t, m, n, s⟩ := lexer
  simp only at hin
  subst hin
  have hla := lookahead_replicate_quote r tail p t m n s hr1
  rw [scan_delim_entry iswspace fuel _ valid_symbols hc1 hc2 hc3 hc4
    (by rw [hla]; exact fun h => absurd h.1 (by decide)) (by rw [hla]; exact hws)
    (by rw [hla]; decide) (by omega)]
  rw [string_delim_short_run fuel r tail p t m n s valid_symbols hfuel hr1 hr2 htail, hsd]
  rfl

/-- C12 witness: the run of two quotes in `""x`, with only `TRIPLE_STRING_DELIM`
valid. -/
theorem short_run_refusal_witness :
    tree_sitter_julia_external_scanner_scan iswspace_C 3 (start [34, 34, 120])
        (hints [TRIPLE_STRING_DELIM]) =
      some (false, TSLexer.mk [120] 2 0 (some 1) 1 BLOCK_COMMENT) :=
  short_run_refusal iswspace_C 3 (start [34, 34, 120]) (hints [TRIPLE_STRING_DELIM]) 2 [120]
    (by decide) (by decide) (by decide) rfl rfl rfl rfl rfl rfl rfl (by decide)

/-! ## C13: the parenthesis test comes before white-space skipping -/

/-- C13: with `IMMEDIATE_PAREN` valid and no content kind valid, for every
non-empty run `w` of white space followed by `'('` and any `rest`, and a step
budget above the length of `w`: the scan skips `w` (the token start moves past
it) and returns failure, with the `'('` as lookahead and no kind written; on the
same input without `w` the scan succeeds with `IMMEDIATE_PAREN`, whatever the
budget. (`iswspace` is any classifier for which `'('` is not white space.) -/
theorem paren_after_whitespace_not_immediate (iswspace : Nat → Bool) (fuel : Nat)
    (lexer : TSLexer) (valid_symbols : TokenType → Bool) (w rest : List Nat)
    (hne : w ≠ [])
    (hw : ∀ c ∈ w, iswspace c = true)
    (h40 : iswspace 40 = false)
    (hp : valid_symbols IMMEDIATE_PAREN = true)
    (hc1 : valid_symbols STRING_CONTENT = false)
    (hc2 : valid_symbols STRING_CONTENT_NO_INTERPOLATION = false)
    (hc3 : valid_symbols TRIPLE_STRING_CONTENT = false)
    (hc4 : valid_symbols TRIPLE_STRING_CONTENT_NO_INTERPOLATION = false)
    (hfuel : w.length + 1 ≤ fuel) :
    tree_sitter_julia_external_scanner_scan iswspace fuel
        { lexer with input := w ++ 40 :: rest } valid_symbols =
      some (false, { lexer with
        input := 40 :: rest
        pos := lexer.pos + w.length
        token_start := lexer.pos + w.length }) ∧
    tree_sitter_julia_external_scanner_scan iswspace fuel
        { lexer with input := 40 :: rest } valid_symbols =
      some (true, { lexer with input := 40 :: rest, result_symbol := IMMEDIATE_PAREN }) := by
  obtain ⟨input, p, t, m, n, s⟩ := lexer
  constructor
  · obtain ⟨c, cs, rfl⟩ := List.exists_cons_of_ne_nil hne
    have hc := hw c (List.mem_cons_self c cs)
    have hc40 : c ≠ 40 := by
      intro h
      rw [h, h40] at hc
      exact Bool.false_ne_true hc
    obtain ⟨f, rfl⟩ : ∃ f, fuel = f + (c :: cs).length + 1 :=
      ⟨fuel - (c :: cs).length - 1, by omega⟩
    unfold tree_sitter_julia_external_scanner_scan
    simp only [List.cons_append, lookahead_cons, hc40, false_and, if_false, hc1, hc2, hc3, hc4,
      Bool.or_self, Bool.false_eq_true]
    rw [← List.cons_append, whitespace_loop_skips iswspace (c :: cs) hw (40 :: rest)
      (by simpa using h40)]
    simp only [lookahead_cons, show (40 : Nat) ≠ 35 from by decide, if_false, string_delim,
      ne_eq, show (40 : Nat) ≠ 34 from by decide, not_false_eq_true, if_true, reduceCtorEq]
  · unfold tree_sitter_julia_external_scanner_scan
    simp only [lookahead_cons, hp, and_self, if_true]

/-- C13 witness: ` (x` against `(x`, with only `IMMEDIATE_PAREN` valid. -/
theorem paren_after_whitespace_not_immediate_witness :
    tree_sitter_julia_external_scanner_scan iswspace_C 2 (start [32, 40, 120])
        (hints [IMMEDIATE_PAREN]) =
      some (false, TSLexer.mk [40, 120] 1 1 none 0 BLOCK_COMMENT) ∧
    tree_sitter_julia_external_scanner_scan iswspace_C 2 (start [40, 120])
        (hints [IMMEDIATE_PAREN]) =
      some (true, TSLexer.mk [40, 120] 0 0 none 0 IMMEDIATE_PAREN) :=
  paren_after_whitespace_not_immediate iswspace_C 2 (start []) (hints [IMMEDIATE_PAREN])
    [32] [120] (by decide) (by decide) rfl rfl rfl rfl rfl rfl (by decide)

/-! ## C15: a short quote run handed to the delimiter classifier -/

theorem string_content_at_quote_delim (fuel : Nat) (lexer : TSLexer)
    (valid_symbols : TokenType → Bool) (hla : lexer.lookahead = 34)
    (hd : (valid_symbols STRING_DELIM || valid_symbols TRIPLE_STRING_DELIM) = true) :
    string_content fuel lexer valid_symbols = string_delim fuel lexer valid_symbols := by
  unfold string_content
  simp only [hla, if_true, hd]

/-- C15: for every hint set with a triple content kind and `TRIPLE_STRING_DELIM`
valid, `STRING_DELIM` and `IMMEDIATE_PAREN` not valid, every input that starts
with a run of exactly one or two `'"'`, and a step budget of at least 3: the scan
is the call of `string_delim` at the same cursor, and that call returns failure,
writing no kind (the cursor has advanced over the run, with one mark-end call
after the first quote). -/
theorem short_run_goes_to_delimiter (iswspace : Nat → Bool) (fuel : Nat) (lexer : TSLexer)
    (valid_symbols : TokenType → Bool) (r : Nat) (tail : List Nat)
    (hr1 : 1 ≤ r) (hr2 : r ≤ 2) (htail : tail.head? ≠ some 34)
    (htriple : valid_symbols TRIPLE_STRING_CONTENT = true ∨
      valid_symbols TRIPLE_STRING_CONTENT_NO_INTERPOLATION = true)
    (htd : valid_symbols TRIPLE_STRING_DELIM = true)
    (hsd : valid_symbols STRING_DELIM = false)
    (hp : valid_symbols IMMEDIATE_PAREN = false)
    (hin : lexer.input = List.replicate r 34 ++ tail)
    (hfuel : 3 ≤ fuel) :
    tree_sitter_julia_external_scanner_scan iswspace fuel lexer valid_symbols =
      string_delim fuel lexer valid_symbols ∧
    string_delim fuel lexer valid_symbols =
      some (false, { lexer with
        input := tail
        pos := lexer.pos + r
        mark := some (lexer.pos + 1)
        mark_calls := lexer.mark_calls + 1 }) := by
  obtain ⟨input, p, t, m, n, s⟩ := lexer
  simp only at hin
  subst hin
  have hany : (valid_symbols STRING_CONTENT || valid_symbols STRING_CONTENT_NO_INTERPOLATION ||
      valid_symbols TRIPLE_STRING_CONTENT ||
      valid_symbols TRIPLE_STRING_CONTENT_NO_INTERPOLATION) = true := by
    rcases htriple with h | h <;> simp [h]
  constructor
  · rw [scan_content iswspace fuel _ valid_symbols hp hany]
    exact string_content_at_quote_delim _ _ _ (lookahead_replicate_quote r tail p t m n s hr1)
      (by simp [htd])
  · rw [string_delim_short_run fuel r tail p t m n s valid_symbols hfuel hr1 hr2 htail, hsd]
    rfl

/-- C15 witness: `"a` inside a triple-quoted string, with `TRIPLE_STRING_CONTENT`
and `TRIPLE_STRING_DELIM` valid: failure. -/
theorem short_run_goes_to_delimiter_witness :
    tree_sitter_julia_external_scanner_scan iswspace_C 3
        (TSLexer.mk [34, 97] 3 3 none 0 TRIPLE_STRING_DELIM)
        (hints [TRIPLE_STRING_CONTENT, TRIPLE_STRING_DELIM]) =
      string_delim 3 (TSLexer.mk [34, 97] 3 3 none 0 TRIPLE_STRING_DELIM)
        (hints [TRIPLE_STRING_CONTENT, TRIPLE_STRING_DELIM]) ∧
    string_delim 3 (TSLexer.mk [34, 97] 3 3 none 0 TRIPLE_STRING_DELIM)
        (hints [TRIPLE_STRING_CONTENT, TRIPLE_STRING_DELIM]) =
      some (false, TSLexer.mk [97] 4 3 (some 4) 1 TRIPLE_STRING_DELIM) :=
  short_run_goes_to_delimiter iswspace_C 3 (TSLexer.mk [34, 97] 3 3 none 0 TRIPLE_STRING_DELIM)
    (hints [TRIPLE_STRING_CONTENT, TRIPLE_STRING_DELIM]) 1 [97] (by decide) (by decide)
    (by decide) (Or.inl rfl) rfl rfl rfl rfl (by decide)

/-- With a content kind valid and no immediate parenthesis to report, the scan is
`string_content`. -/
theorem scan_content_no_paren (iswspace : Nat → Bool) (fuel : Nat) (lexer : TSLexer)
    (valid_symbols : TokenType → Bool)
    (hparen : ¬ (lexer.lookahead = 40 ∧ valid_symbols IMMEDIATE_PAREN = true))
    (hany : (valid_symbols STRING_CONTENT || valid_symbols STRING_CONTENT_NO_INTERPOLATION ||
      valid_symbols TRIPLE_STRING_CONTENT ||
      valid_symbols TRIPLE_STRING_CONTENT_NO_INTERPOLATION) = true) :
    tree_sitter_julia_external_scanner_scan iswspace fuel lexer valid_symbols =
      string_content fuel lexer valid_symbols := by
  unfold tree_sitter_julia_external_scanner_scan
  rw [if_neg hparen, if_pos hany]

/-! ## C17: without interpolation a `'$'` is ordinary content -/

/-- C17 (as stated, refuted): with `STRING_CONTENT_NO_INTERPOLATION` the only
content kind valid and `IMMEDIATE_PAREN` valid as well, the scan of the body `(a`
followed by `'"'` does not give a content token: the parenthesis test comes first
and the scan succeeds with `IMMEDIATE_PAREN`, of width zero. -/
theorem dollar_literal_counterexample :
    tree_sitter_julia_external_scanner_scan iswspace_C 3 (start [40, 97, 34])
        (hints [STRING_CONTENT_NO_INTERPOLATION, IMMEDIATE_PAREN]) =
      some (true, TSLexer.mk [40, 97, 34] 0 0 none 0 IMMEDIATE_PAREN) ∧
    hints [STRING_CONTENT_NO_INTERPOLATION, IMMEDIATE_PAREN] STRING_CONTENT = false ∧
    hints [STRING_CONTENT_NO_INTERPOLATION, IMMEDIATE_PAREN] TRIPLE_STRING_CONTENT = false ∧
    hints [STRING_CONTENT_NO_INTERPOLATION, IMMEDIATE_PAREN]
      STRING_CONTENT_NO_INTERPOLATION = true :=
  ⟨rfl, rfl, rfl, rfl⟩

/-- C17 (amended): with `STRING_CONTENT_NO_INTERPOLATION` the only content kind
valid, for every non-empty `body` without `'"'`, backslash or NUL (any number of
`'$'`, also in front), provided `IMMEDIATE_PAREN` is not valid or `body` does not
begin with `'('`, and a step budget above the length of `body`: the scan of
`body` followed by `'"'` and any `rest` succeeds with
`STRING_CONTENT_NO_INTERPOLATION`, having advanced over exactly `body` with no
mark-end call; the quote is the lookahead. So for a cursor handed over with no
mark, the token runs from the entry position to the end of `body`. -/
theorem dollar_literal_without_interpolation (iswspace : Nat → Bool) (fuel : Nat)
    (lexer : TSLexer) (valid_symbols : TokenType → Bool) (body rest : List Nat)
    (hne : body ≠ [])
    (hbody : ∀ c ∈ body, c ≠ 34 ∧ c ≠ 92 ∧ c ≠ 0)
    (hc1 : valid_symbols STRING_CONTENT = false)
    (hc2 : valid_symbols STRING_CONTENT_NO_INTERPOLATION = true)
    (hc3 : valid_symbols TRIPLE_STRING_CONTENT = false)
    (hc4 : valid_symbols TRIPLE_STRING_CONTENT_NO_INTERPOLATION = false)
    (hparen : valid_symbols IMMEDIATE_PAREN = false ∨ body.head? ≠ some 40)
    (hin : lexer.input = body ++ 34 :: rest)
    (hfuel : body.length + 1 ≤ fuel) :
    ∃ lexer', tree_sitter_julia_external_scanner_scan iswspace fuel lexer valid_symbols =
        some (true, lexer') ∧
      lexer' = { lexer with
        input := 34 :: rest
        pos := lexer.pos + body.length
        result_symbol := STRING_CONTENT_NO_INTERPOLATION } ∧
      (lexer.mark = none →
        lexer'.token_end = lexer.pos + body.length ∧
        lexer'.token_start = lexer.token_start) := by
  obtain ⟨input, p, t, m, n, s⟩ := lexer
  simp only at hin
  subst hin
  refine ⟨_, ?_, rfl, fun hm => ⟨by simp only at hm; subst hm; rfl, rfl⟩⟩
  obtain ⟨c, cs, rfl⟩ := List.exists_cons_of_ne_nil hne
  have hc := hbody c (List.mem_cons_self c cs)
  have hnp : ¬ ((TSLexer.mk (c :: cs ++ 34 :: rest) p t m n s).lookahead = 40 ∧
      valid_symbols IMMEDIATE_PAREN = true) := by
    rw [lookahead_append_cons]
    rintro ⟨h40, hv⟩
    rcases hparen with h | h
    · rw [h] at hv
      exact Bool.false_ne_true hv
    · exact h (by rw [h40]; rfl)
  rw [scan_content_no_paren iswspace fuel _ valid_symbols hnp (by simp [hc2])]
  rw [string_content_not_quote _ _ _ (by rw [lookahead_append_cons]; exact hc.1)]
  rw [if_neg (by rw [hc1, hc3]; exact fun h => absurd h.1 (by decide))]
  obtain ⟨f, rfl⟩ : ∃ f, fuel = (f + 1) + (c :: cs).length :=
    ⟨fuel - (c :: cs).length - 1, by omega⟩
  have hplain : ∀ d ∈ c :: cs, plain_char (valid_symbols STRING_CONTENT ||
      valid_symbols TRIPLE_STRING_CONTENT) d := by
    intro d hd
    have := hbody d hd
    refine ⟨this.1, this.2.1, this.2.2, ?_⟩
    rw [hc1, hc3]
    exact fun h => absurd h (by decide)
  rw [string_content_loop_plain _ _ (c :: cs) hplain, string_content_loop]
  simp only [lookahead_cons, if_true, hc1, hc3, hc4, Bool.or_self, Bool.not_false,
    Bool.false_eq_true, if_false]

/-- C17 witness: the body `$a$` before a closing quote, with only
`STRING_CONTENT_NO_INTERPOLATION` valid, is one content token. -/
theorem dollar_literal_without_interpolation_witness :
    ∃ lexer', tree_sitter_julia_external_scanner_scan iswspace_C 4
        (TSLexer.mk [36, 97, 36, 34] 1 1 none 0 STRING_DELIM)
        (hints [STRING_CONTENT_NO_INTERPOLATION]) = some (true, lexer') ∧
      lexer' = TSLexer.mk [34] 4 1 none 0 STRING_CONTENT_NO_INTERPOLATION ∧
      ((none : Option Nat) = none → lexer'.token_end = 4 ∧ lexer'.token_start = 1) :=
  dollar_literal_without_interpolation iswspace_C 4
    (TSLexer.mk [36, 97, 36, 34] 1 1 none 0 STRING_DELIM)
    (hints [STRING_CONTENT_NO_INTERPOLATION]) [36, 97, 36] [] (by decide) (by decide)
    rfl rfl rfl rfl (Or.inl rfl) rfl (by decide)

/-! ## C20: the emitted kind when a content kind is valid -/

/-- C20: for every hint set in which a content kind is valid and which is not of
the form "`STRING_CONTENT` and `TRIPLE_STRING_CONTENT_NO_INTERPOLATION` valid,
`TRIPLE_STRING_CONTENT` not", every input and every step budget: if the scan
returns success, the kind written to `result_symbol` is marked valid by the hint
set. -/
theorem content_hint_emits_valid (iswspace : Nat → Bool) (fuel : Nat)
    (lexer lexer' : TSLexer) (valid_symbols : TokenType → Bool)
    (hany : valid_symbols STRING_CONTENT = true ∨
      valid_symbols STRING_CONTENT_NO_INTERPOLATION = true ∨
      valid_symbols TRIPLE_STRING_CONTENT = true ∨
      valid_symbols TRIPLE_STRING_CONTENT_NO_INTERPOLATION = true)
    (hform : ¬ (valid_symbols STRING_CONTENT = true ∧
      valid_symbols TRIPLE_STRING_CONTENT_NO_INTERPOLATION = true ∧
      valid_symbols TRIPLE_STRING_CONTENT = false))
    (h : tree_sitter_julia_external_scanner_scan iswspace fuel lexer valid_symbols
      = some (true, lexer')) :
    valid_symbols lexer'.result_symbol = true := by
  have hany' : (valid_symbols STRING_CONTENT || valid_symbols STRING_CONTENT_NO_INTERPOLATION ||
      valid_symbols TRIPLE_STRING_CONTENT ||
      valid_symbols TRIPLE_STRING_CONTENT_NO_INTERPOLATION) = true := by
    rcases hany with h | h | h | h <;> simp [h]
  by_cases hparen : lexer.lookahead = 40 ∧ valid_symbols IMMEDIATE_PAREN = true
  · unfold tree_sitter_julia_external_scanner_scan at h
    rw [if_pos hparen] at h
    simp only [Option.some.injEq, Prod.mk.injEq, true_and] at h
    subst h
    exact hparen.2
  · rw [scan_content_no_paren iswspace fuel lexer valid_symbols hparen hany'] at h
    rcases string_content_emits _ _ _ _ h with hv | hs
    · exact hv
    · rw [hs]
      exact content_symbol_valid valid_symbols hany' hform

/-- C20 witness: all four content kinds valid, text `a$`: the scan emits
`TRIPLE_STRING_CONTENT`, which is valid. -/
theorem content_hint_emits_valid_witness :
    hints [STRING_CONTENT, STRING_CONTENT_NO_INTERPOLATION, TRIPLE_STRING_CONTENT,
      TRIPLE_STRING_CONTENT_NO_INTERPOLATION] TRIPLE_STRING_CONTENT = true :=
  content_hint_emits_valid iswspace_C 4 (start [97, 36])
    (TSLexer.mk [36] 1 0 (some 1) 1 TRIPLE_STRING_CONTENT)
    (hints [STRING_CONTENT, STRING_CONTENT_NO_INTERPOLATION, TRIPLE_STRING_CONTENT,
      TRIPLE_STRING_CONTENT_NO_INTERPOLATION]) (Or.inl rfl) (by decide) rfl

/-! ## What every call leaves unchanged, and how far the cursor moves -/

theorem forward_refl (lexer : TSLexer) : Forward lexer lexer := ⟨le_refl _, rfl⟩

theorem forward_trans {a b c : TSLexer} (h1 : Forward a b) (h2 : Forward b c) :
    Forward a c := ⟨le_trans h1.1 h2.1, h2.2.trans h1.2⟩

theorem forward_advance (lexer : TSLexer) (skip : Bool) : Forward lexer (lexer.advance skip) := by
  obtain ⟨input, p, t, m, n, s⟩ := lexer
  cases input with
  | nil => exact ⟨le_refl _, rfl⟩
  | cons c cs =>
    refine ⟨Nat.le_succ p, ?_⟩
    simp only [TSLexer.advance, List.length_cons]
    omega

/-- An advance at a lookahead other than 0 steps over one character. -/
theorem advance_of_lookahead_ne_zero (lexer : TSLexer) (skip : Bool)
    (h : lexer.lookahead ≠ 0) :
    (lexer.advance skip).pos = lexer.pos + 1 ∧
    (lexer.advance skip).input.length + 1 = lexer.input.length := by
  obtain ⟨input, p, t, m, n, s⟩ := lexer
  cases input with
  | nil => exact absurd rfl h
  | cons c cs => exact ⟨rfl, rfl⟩

theorem advance_false_frame (lexer : TSLexer) :
    (lexer.advance false).mark = lexer.mark ∧
    (lexer.advance false).mark_calls = lexer.mark_calls ∧
    (lexer.advance false).token_start = lexer.token_start ∧
    (lexer.advance false).result_symbol = lexer.result_symbol := by
  obtain ⟨input, p, t, m, n, s⟩ := lexer
  cases input <;> exact ⟨rfl, rfl, rfl, rfl⟩

theorem quote_loop_inv (fuel : Nat) (lexer lexer' : TSLexer) (qc qc' : Nat)
    (h : quote_loop fuel lexer qc = some (lexer', qc')) :
    Forward lexer lexer' ∧ lexer'.mark = lexer.mark ∧ lexer'.mark_calls = lexer.mark_calls ∧
    lexer'.token_start = lexer.token_start ∧ lexer'.result_symbol = lexer.result_symbol ∧
    ((qc < 3 ∧ lexer.lookahead = 34) → lexer.pos + 1 ≤ lexer'.pos) := by
  induction fuel generalizing lexer qc with
  | zero => simp [quote_loop] at h
  | succ fuel ih =>
    unfold quote_loop at h
    split at h
    · rename_i hc
      obtain ⟨hf, h1, h2, h3, h4, _⟩ := ih _ _ h
      obtain ⟨a1, a2, a3, a4⟩ := advance_false_frame lexer
      have hadv := advance_of_lookahead_ne_zero lexer false (by rw [hc.2]; decide)
      refine ⟨forward_trans (forward_advance lexer false) hf, h1.trans a1, h2.trans a2,
        h3.trans a3, h4.trans a4, fun _ => ?_⟩
      have := hf.1
      omega
    · rename_i hc
      simp only [Option.some.injEq, Prod.mk.injEq] at h
      obtain ⟨rfl, rfl⟩ := h
      exact ⟨forward_refl _, rfl, rfl, rfl, rfl, fun hq => absurd hq hc⟩

/-- Every return of the content loop is a success with the kind chosen by the two
flags; the cursor has only moved forward; and either mark-end was not called (only
outside triple mode), or the last mark lies between the cursor the loop started
at and the cursor it returned at. -/
theorem string_content_loop_inv (triple_string interpolate : Bool) (fuel : Nat)
    (lexer lexer' : TSLexer) (b : Bool)
    (h : string_content_loop triple_string interpolate fuel lexer = some (b, lexer')) :
    Forward lexer lexer' ∧ lexer'.token_start = lexer.token_start ∧
    ((triple_string = false ∧ lexer'.mark = lexer.mark ∧
        lexer'.mark_calls = lexer.mark_calls) ∨
      (∃ q, lexer'.mark = some q ∧ lexer.pos ≤ q ∧ q ≤ lexer'.pos ∧
        lexer.mark_calls < lexer'.mark_calls)) := by
  induction fuel generalizing lexer with
  | zero => simp [string_content_loop] at h
  | succ fuel ih =>
    unfold string_content_loop at h
    simp only [] at h
    split at h
    · split at h
      · rename_i ht
        simp only [Option.some.injEq, Prod.mk.injEq] at h
        obtain ⟨_, rfl⟩ := h
        exact ⟨forward_refl _, rfl, Or.inl ⟨by simpa using ht, rfl, rfl⟩⟩
      · split at h
        · simp at h
        · rename_i l2 qc hq
          obtain ⟨hf, h1, h2, h3, _, _⟩ := quote_loop_inv _ _ _ _ _ hq
          split at h
          · simp only [Option.some.injEq, Prod.mk.injEq] at h
            obtain ⟨_, rfl⟩ := h
            refine ⟨hf, h3, Or.inr ⟨lexer.pos, h1, le_refl _, hf.1, ?_⟩⟩
            show lexer.mark_calls < l2.mark_calls
            rw [h2]
            exact Nat.lt_succ_self _
          · obtain ⟨hf2, g1, g2⟩ := ih _ h
            refine ⟨forward_trans hf hf2, g1.trans h3, Or.inr ?_⟩
            rcases g2 with ⟨_, g3, g4⟩ | ⟨q, g3, g4, g5, g6⟩
            · refine ⟨lexer.pos, g3.trans h1, le_refl _, le_trans hf.1 hf2.1, ?_⟩
              rw [g4, h2]
              exact Nat.lt_succ_self _
            · refine ⟨q, g3, le_trans hf.1 g4, g5, ?_⟩
              rw [h2] at g6
              exact Nat.lt_of_succ_lt g6
    · split at h
      · split at h
        · obtain ⟨hf2, g1, g2⟩ := ih _ h
          obtain ⟨a1, a2, a3, _⟩ := advance_false_frame lexer
          have hfa := forward_advance lexer false
          refine ⟨forward_trans hfa hf2, g1.trans a3, ?_⟩
          rcases g2 with ⟨g0, g3, g4⟩ | ⟨q, g3, g4, g5, g6⟩
          · exact Or.inl ⟨g0, g3.trans a1, g4.trans a2⟩
          · exact Or.inr ⟨q, g3, le_trans hfa.1 g4, g5, by rw [a2] at g6; exact g6⟩
        · simp only [Option.some.injEq, Prod.mk.injEq] at h
          obtain ⟨_, rfl⟩ := h
          exact ⟨forward_refl _, rfl,
            Or.inr ⟨lexer.pos, rfl, le_refl _, le_refl _, Nat.lt_succ_self _⟩⟩
      · split at h
        · have hfa := forward_advance lexer false
          obtain ⟨a1, a2, a3, _⟩ := advance_false_frame lexer
          split at h
          · simp only [Option.some.injEq, Prod.mk.injEq] at h
            obtain ⟨_, rfl⟩ := h
            refine ⟨hfa, a3, Or.inr ⟨(lexer.advance false).pos, rfl, hfa.1, le_refl _, ?_⟩⟩
            show lexer.mark_calls < (lexer.advance false).mark_calls + 1
            rw [a2]
            exact Nat.lt_succ_self _
          · obtain ⟨hf2, g1, g2⟩ := ih _ h
            have hfb := forward_advance (lexer.advance false) false
            obtain ⟨b1, b2, b3, _⟩ := advance_false_frame (lexer.advance false)
            refine ⟨forward_trans hfa (forward_trans hfb hf2), (g1.trans b3).trans a3, ?_⟩
            rcases g2 with ⟨g0, g3, g4⟩ | ⟨q, g3, g4, g5, g6⟩
            · exact Or.inl ⟨g0, (g3.trans b1).trans a1, (g4.trans b2).trans a2⟩
            · exact Or.inr ⟨q, g3, le_trans hfa.1 (le_trans hfb.1 g4), g5, by
                rw [b2, a2] at g6; exact g6⟩
        · split at h
          · simp only [Option.some.injEq, Prod.mk.injEq] at h
            obtain ⟨_, rfl⟩ := h
            exact ⟨forward_refl _, rfl,
              Or.inr ⟨lexer.pos, rfl, le_refl _, le_refl _, Nat.lt_succ_self _⟩⟩
          · obtain ⟨hf2, g1, g2⟩ := ih _ h
            obtain ⟨a1, a2, a3, _⟩ := advance_false_frame lexer
            have hfa := forward_advance lexer false
            refine ⟨forward_trans hfa hf2, g1.trans a3, ?_⟩
            rcases g2 with ⟨g0, g3, g4⟩ | ⟨q, g3, g4, g5, g6⟩
            · exact Or.inl ⟨g0, g3.trans a1, g4.trans a2⟩
            · exact Or.inr ⟨q, g3, le_trans hfa.1 g4, g5, by rw [a2] at g6; exact g6⟩

theorem string_delim_inv (fuel : Nat) (lexer lexer' : TSLexer)
    (valid_symbols : TokenType → Bool) (b : Bool)
    (h : string_delim fuel lexer valid_symbols = some (b, lexer')) :
    Forward lexer lexer' ∧ lexer'.token_start = lexer.token_start := by
  unfold string_delim at h
  simp only [] at h
  split at h
  · simp only [Option.some.injEq, Prod.mk.injEq] at h
    obtain ⟨_, rfl⟩ := h
    exact ⟨forward_refl _, rfl⟩
  · split at h
    · simp at h
    · rename_i l2 qc hq
      obtain ⟨hf, _, _, h3, _, _⟩ := quote_loop_inv _ _ _ _ _ hq
      have hfa := forward_trans (forward_advance lexer false) hf
      have ht : l2.token_start = lexer.token_start :=
        h3.trans (advance_false_frame lexer).2.2.1
      split at h
      · split at h
        · simp only [Option.some.injEq, Prod.mk.injEq] at h
          obtain ⟨_, rfl⟩ := h
          exact ⟨hfa, ht⟩
        · simp only [Option.some.injEq, Prod.mk.injEq] at h
          obtain ⟨_, rfl⟩ := h
          exact ⟨hfa, ht⟩
      · split at h
        · simp only [Option.some.injEq, Prod.mk.injEq] at h
          obtain ⟨_, rfl⟩ := h
          exact ⟨hfa, ht⟩
        · simp only [Option.some.injEq, Prod.mk.injEq] at h
          obtain ⟨_, rfl⟩ := h
          exact ⟨hfa, ht⟩

theorem block_comment_loop_inv (fuel : Nat) (lexer lexer' : TSLexer) (after_eq : Bool)
    (nesting_depth : Nat) (b : Bool)
    (h : block_comment_loop fuel lexer after_eq nesting_depth = some (b, lexer')) :
    Forward lexer lexer' ∧ lexer'.token_start = lexer.token_start := by
  induction fuel generalizing lexer after_eq nesting_depth with
  | zero => simp [block_comment_loop] at h
  | succ fuel ih =>
    have hfa := forward_advance lexer false
    have ha := (advance_false_frame lexer).2.2.1
    have step : ∀ ae d, block_comment_loop fuel (lexer.advance false) ae d = some (b, lexer') →
        Forward lexer lexer' ∧ lexer'.token_start = lexer.token_start := by
      intro ae d hh
      obtain ⟨g1, g2⟩ := ih _ _ _ hh
      exact ⟨forward_trans hfa g1, g2.trans ha⟩
    unfold block_comment_loop at h
    simp only [] at h
    split at h
    · simp only [Option.some.injEq, Prod.mk.injEq] at h
      obtain ⟨_, rfl⟩ := h
      exact ⟨forward_refl _, rfl⟩
    · split at h
      · exact step _ _ h
      · split at h
        · split at h
          · split at h
            · simp only [Option.some.injEq, Prod.mk.injEq] at h
              obtain ⟨_, rfl⟩ := h
              exact ⟨hfa, ha⟩
            · exact step _ _ h
          · split at h
            · obtain ⟨g1, g2⟩ := ih _ _ _ h
              exact ⟨forward_trans hfa (forward_trans (forward_advance _ false) g1),
                (g2.trans (advance_false_frame _).2.2.1).trans ha⟩
            · exact step _ _ h
        · exact step _ _ h

theorem whitespace_loop_inv (iswspace : Nat → Bool) (fuel : Nat) (lexer lexer' : TSLexer)
    (h : whitespace_loop iswspace fuel lexer = some lexer') :
    Forward lexer lexer' ∧
    (lexer.token_start ≤ lexer.pos →
      lexer.token_start ≤ lexer'.token_start ∧ lexer'.token_start ≤ lexer'.pos) := by
  induction fuel generalizing lexer with
  | zero => simp [whitespace_loop] at h
  | succ fuel ih =>
    unfold whitespace_loop at h
    split at h
    · obtain ⟨g1, g2⟩ := ih _ h
      refine ⟨forward_trans (forward_advance lexer true) g1, fun ht => ?_⟩
      have hts : lexer.token_start ≤ (lexer.advance true).token_start ∧
          (lexer.advance true).token_start ≤ (lexer.advance true).pos := by
        obtain ⟨input, p, t, m, n, s⟩ := lexer
        cases input with
        | nil => exact ⟨le_refl _, ht⟩
        | cons c cs => exact ⟨Nat.le_succ_of_le ht, le_refl _⟩
      obtain ⟨g3, g4⟩ := g2 hts.2
      exact ⟨le_trans hts.1 g3, g4⟩
    · simp only [Option.some.injEq] at h
      subst h
      exact ⟨forward_refl _, fun ht => ⟨le_refl _, ht⟩⟩

theorem string_content_inv (fuel : Nat) (lexer lexer' : TSLexer)
    (valid_symbols : TokenType → Bool) (b : Bool)
    (h : string_content fuel lexer valid_symbols = some (b, lexer')) :
    Forward lexer lexer' ∧ lexer'.token_start = lexer.token_start := by
  unfold string_content at h
  simp only [] at h
  split at h
  · split at h
    · exact string_delim_inv _ _ _ _ _ h
    · split at h
      · simp only [Option.some.injEq, Prod.mk.injEq] at h
        obtain ⟨_, rfl⟩ := h
        exact ⟨forward_refl _, rfl⟩
      · split at h
        · simp at h
        · rename_i l2 qc hq
          obtain ⟨hf, _, _, h3, _, _⟩ := quote_loop_inv _ _ _ _ _ hq
          split at h
          · simp only [Option.some.injEq, Prod.mk.injEq] at h
            obtain ⟨_, rfl⟩ := h
            exact ⟨hf, h3⟩
          · split at h
            · simp only [Option.some.injEq, Prod.mk.injEq] at h
              obtain ⟨_, rfl⟩ := h
              exact ⟨hf, h3⟩
            · obtain ⟨g1, g2, _⟩ := string_content_loop_inv _ _ _ _ _ _ h
              exact ⟨forward_trans hf g1, g2.trans h3⟩
  · split at h
    · simp only [Option.some.injEq, Prod.mk.injEq] at h
      obtain ⟨_, rfl⟩ := h
      exact ⟨forward_refl _, rfl⟩
    · obtain ⟨g1, g2, _⟩ := string_content_loop_inv _ _ _ _ _ _ h
      exact ⟨g1, g2⟩

/-- Whatever the scan returns, the cursor has only moved forward over characters
of the input, and the token start has not moved back. -/
theorem scan_inv (iswspace : Nat → Bool) (fuel : Nat) (lexer lexer' : TSLexer)
    (valid_symbols : TokenType → Bool) (b : Bool)
    (h : tree_sitter_julia_external_scanner_scan iswspace fuel lexer valid_symbols =
      some (b, lexer')) :
    Forward lexer lexer' ∧
    (lexer.token_start ≤ lexer.pos → lexer.token_start ≤ lexer'.token_start) := by
  unfold tree_sitter_julia_external_scanner_scan at h
  simp only [] at h
  split at h
  · simp only [Option.some.injEq, Prod.mk.injEq] at h
    obtain ⟨_, rfl⟩ := h
    exact ⟨forward_refl _, fun _ => le_refl _⟩
  · split at h
    · obtain ⟨g1, g2⟩ := string_content_inv _ _ _ _ _ h
      exact ⟨g1, fun _ => le_of_eq g2.symm⟩
    · split at h
      · simp at h
      · rename_i l1 hw
        obtain ⟨w1, w2⟩ := whitespace_loop_inv _ _ _ _ hw
        have hfa := forward_advance l1 false
        have ha := (advance_false_frame l1).2.2.1
        split at h
        · split at h
          · simp only [Option.some.injEq, Prod.mk.injEq] at h
            obtain ⟨_, rfl⟩ := h
            exact ⟨forward_trans w1 hfa, fun ht => by rw [ha]; exact (w2 ht).1⟩
          · obtain ⟨g1, g2⟩ := block_comment_loop_inv _ _ _ _ _ _ h
            exact ⟨forward_trans w1 (forward_trans hfa (forward_trans (forward_advance _ false) g1)),
              fun ht => by
                rw [g2, (advance_false_frame _).2.2.1, ha]; exact (w2 ht).1⟩
        · obtain ⟨g1, g2⟩ := string_delim_inv _ _ _ _ _ h
          exact ⟨forward_trans w1 g1, fun ht => by rw [g2]; exact (w2 ht).1⟩

/-! ## Every loop iteration returns or advances; hence every call returns -/

theorem quote_run_le_length (cap : Nat) (input : List Nat) :
    quote_run cap input ≤ input.length := by
  unfold quote_run
  have := (List.takeWhile_sublist (l := input) (fun c => c == 34)).length_le
  omega

theorem quote_run_pos_of_lookahead (cap : Nat) (lexer : TSLexer)
    (h : lexer.lookahead = 34) : 1 ≤ quote_run (cap + 1) lexer.input := by
  obtain ⟨input, p, t, m, n, s⟩ := lexer
  cases input with
  | nil => simp at h
  | cons c cs =>
    simp only [lookahead_cons] at h
    subst h
    rw [quote_run_cons_quote]
    omega

/-- One iteration of the white-space loop: it returns, or it advances over one
character and goes on. -/
theorem whitespace_loop_step (iswspace : Nat → Bool) (h0 : iswspace 0 = false)
    (lexer : TSLexer) :
    (∀ fuel, whitespace_loop iswspace (fuel + 1) lexer = some lexer) ∨
    ((lexer.advance true).input.length + 1 = lexer.input.length ∧
      ∀ fuel, whitespace_loop iswspace (fuel + 1) lexer =
        whitespace_loop iswspace fuel (lexer.advance true)) := by
  by_cases hw : iswspace lexer.lookahead = true
  · right
    have hne : lexer.lookahead ≠ 0 := by
      intro h
      rw [h, h0] at hw
      exact Bool.false_ne_true hw
    refine ⟨(advance_of_lookahead_ne_zero lexer true hne).2, fun fuel => ?_⟩
    rw [whitespace_loop, if_pos hw]
  · left
    intro fuel
    rw [whitespace_loop, if_neg hw]

/-- One iteration of a quote-counting loop: it returns, or it advances over one
character and goes on. -/
theorem quote_loop_step (lexer : TSLexer) (quote_count : Nat) :
    (∀ fuel, quote_loop (fuel + 1) lexer quote_count = some (lexer, quote_count)) ∨
    ((lexer.advance false).input.length + 1 = lexer.input.length ∧
      ∀ fuel, quote_loop (fuel + 1) lexer quote_count =
        quote_loop fuel (lexer.advance false) (quote_count + 1)) := by
  by_cases hc : quote_count < 3 ∧ lexer.lookahead = 34
  · right
    refine ⟨(advance_of_lookahead_ne_zero lexer false (by rw [hc.2]; decide)).2, fun fuel => ?_⟩
    rw [quote_loop, if_pos hc]
  · left
    intro fuel
    rw [quote_loop, if_neg hc]

/-- One iteration of the block-comment loop: it returns, or it advances over at
least one character and goes on. -/
theorem block_comment_loop_step (lexer : TSLexer) (after_eq : Bool) (nesting_depth : Nat) :
    (∃ r, ∀ fuel, block_comment_loop (fuel + 1) lexer after_eq nesting_depth = some r) ∨
    (∃ lexer' after_eq' nesting_depth', lexer'.input.length < lexer.input.length ∧
      ∀ fuel, block_comment_loop (fuel + 1) lexer after_eq nesting_depth =
        block_comment_loop fuel lexer' after_eq' nesting_depth') := by
  by_cases h0 : lexer.lookahead = 0
  · left
    exact ⟨(false, lexer), fun fuel => by rw [block_comment_loop, if_pos h0]⟩
  · have hadv := (advance_of_lookahead_ne_zero lexer false h0).2
    by_cases h61 : lexer.lookahead = 61
    · right
      exact ⟨lexer.advance false, true, nesting_depth, by omega, fun fuel => by
        rw [block_comment_loop, if_neg h0, if_pos h61]⟩
    · by_cases h35 : lexer.lookahead = 35
      · cases after_eq with
        | true =>
          by_cases hd : (nesting_depth + UINT_RANGE - 1) % UINT_RANGE = 0
          · left
            exact ⟨(true, { lexer.advance false with result_symbol := BLOCK_COMMENT }),
              fun fuel => by
                rw [block_comment_loop, if_neg h0, if_neg h61, if_pos h35]
                simp only [if_true, hd]⟩
          · right
            exact ⟨lexer.advance false, false, (nesting_depth + UINT_RANGE - 1) % UINT_RANGE,
              by omega, fun fuel => by
                rw [block_comment_loop, if_neg h0, if_neg h61, if_pos h35]
                simp only [if_true, hd, if_false]⟩
        | false =>
          right
          by_cases he : (lexer.advance false).lookahead = 61
          · have hadv2 := (advance_of_lookahead_ne_zero (lexer.advance false) false
              (by rw [he]; decide)).2
            exact ⟨(lexer.advance false).advance false, false,
              (nesting_depth + 1) % UINT_RANGE, by omega, fun fuel => by
                rw [block_comment_loop, if_neg h0, if_neg h61, if_pos h35]
                simp only [Bool.false_eq_true, if_false, he, if_true]⟩
          · exact ⟨lexer.advance false, false, nesting_depth, by omega, fun fuel => by
              rw [block_comment_loop, if_neg h0, if_neg h61, if_pos h35]
              simp only [Bool.false_eq_true, if_false, he]⟩
      · right
        exact ⟨lexer.advance false, false, nesting_depth, by omega, fun fuel => by
          rw [block_comment_loop, if_neg h0, if_neg h61, if_neg h35]⟩

/-- One iteration of the content loop (with budget for its inner quote-counting
loop): it returns, or it advances over at least one character and goes on. -/
theorem string_content_loop_step (triple_string interpolate : Bool) (lexer : TSLexer) :
    (∃ r, ∀ fuel, 4 ≤ fuel →
      string_content_loop triple_string interpolate (fuel + 1) lexer = some r) ∨
    (∃ lexer', lexer'.input.length < lexer.input.length ∧
      ∀ fuel, 4 ≤ fuel →
        string_content_loop triple_string interpolate (fuel + 1) lexer =
          string_content_loop triple_string interpolate fuel lexer') := by
  by_cases h34 : lexer.lookahead = 34
  · cases triple_string with
    | false =>
      left
      exact ⟨(true, { lexer with result_symbol :=
          if interpolate then STRING_CONTENT else STRING_CONTENT_NO_INTERPOLATION }),
        fun fuel _ => by
          rw [string_content_loop, if_pos h34]
          simp only [Bool.not_false, if_true]⟩
    | true =>
      have hk1 : 1 ≤ quote_run 3 lexer.mark_end.input := quote_run_pos_of_lookahead 2 _ h34
      have hk2 := quote_run_le_length 3 lexer.mark_end.input
      have hk3 : quote_run 3 lexer.mark_end.input ≤ 3 := by unfold quote_run; omega
      by_cases hk : quote_run 3 lexer.mark_end.input = 3
      · left
        exact ⟨(true, { advanced lexer.mark_end 3 with result_symbol :=
            if interpolate then TRIPLE_STRING_CONTENT
            else TRIPLE_STRING_CONTENT_NO_INTERPOLATION }), fun fuel hf => by
          rw [string_content_loop, if_pos h34]
          simp only [Bool.not_true, Bool.false_eq_true, if_false]
          rw [quote_loop_eq _ _ _ (by omega) (by omega)]
          simp only [Nat.sub_zero, Nat.zero_add, hk, if_true]⟩
      · right
        refine ⟨advanced lexer.mark_end (quote_run 3 lexer.mark_end.input), ?_, fun fuel hf => ?_⟩
        · have hl : lexer.mark_end.input = lexer.input := rfl
          simp only [advanced, List.length_drop]
          rw [hl] at hk1 hk2 ⊢
          omega
        · rw [string_content_loop, if_pos h34]
          simp only [Bool.not_true, Bool.false_eq_true, if_false]
          rw [quote_loop_eq _ _ _ (by omega) (by omega)]
          simp only [Nat.sub_zero, Nat.zero_add, hk, if_false]
  · by_cases h36 : lexer.lookahead = 36
    · have hadv := (advance_of_lookahead_ne_zero lexer false (by rw [h36]; decide)).2
      cases interpolate with
      | false =>
        right
        exact ⟨lexer.advance false, by omega, fun fuel _ => by
          rw [string_content_loop, if_neg h34, if_pos h36]
          simp only [Bool.not_false, if_true]⟩
      | true =>
        left
        exact ⟨(true, { lexer.mark_end with result_symbol :=
            if triple_string then TRIPLE_STRING_CONTENT else STRING_CONTENT }),
          fun fuel _ => by
            rw [string_content_loop, if_neg h34, if_pos h36]
            simp only [Bool.not_true, Bool.false_eq_true, if_false]⟩
    · by_cases h92 : lexer.lookahead = 92
      · have hadv := (advance_of_lookahead_ne_zero lexer false (by rw [h92]; decide)).2
        by_cases hz : (lexer.advance false).lookahead = 0
        · left
          exact ⟨(true, { (lexer.advance false).mark_end with
              result_symbol := content_symbol triple_string interpolate }),
            fun fuel _ => by
              rw [string_content_loop, if_neg h34, if_neg h36, if_pos h92]
              simp only [hz, if_true]⟩
        · right
          have hadv2 := (advance_of_lookahead_ne_zero (lexer.advance false) false hz).2
          exact ⟨(lexer.advance false).advance false, by omega, fun fuel _ => by
            rw [string_content_loop, if_neg h34, if_neg h36, if_pos h92]
            simp only [hz, if_false]⟩
      · by_cases h0 : lexer.lookahead = 0
        · left
          exact ⟨(true,
              { lexer.mark_end with result_symbol := content_symbol triple_string interpolate }),
            fun fuel _ => by
              rw [string_content_loop, if_neg h34, if_neg h36, if_neg h92, if_pos h0]⟩
        · right
          have hadv := (advance_of_lookahead_ne_zero lexer false h0).2
          exact ⟨lexer.advance false, by omega, fun fuel _ => by
            rw [string_content_loop, if_neg h34, if_neg h36, if_neg h92, if_neg h0]⟩

theorem whitespace_loop_total (iswspace : Nat → Bool) (h0 : iswspace 0 = false)
    (fuel : Nat) (lexer : TSLexer) (hfuel : lexer.input.length + 1 ≤ fuel) :
    ∃ lexer', whitespace_loop iswspace fuel lexer = some lexer' := by
  induction fuel generalizing lexer with
  | zero => omega
  | succ fuel ih =>
    rcases whitespace_loop_step iswspace h0 lexer with h | ⟨hlen, h⟩
    · exact ⟨lexer, h fuel⟩
    · rw [h fuel]
      exact ih _ (by omega)

theorem block_comment_loop_total (fuel : Nat) (lexer : TSLexer) (after_eq : Bool)
    (nesting_depth : Nat) (hfuel : lexer.input.length + 1 ≤ fuel) :
    ∃ r, block_comment_loop fuel lexer after_eq nesting_depth = some r := by
  induction fuel generalizing lexer after_eq nesting_depth with
  | zero => omega
  | succ fuel ih =>
    rcases block_comment_loop_step lexer after_eq nesting_depth with
      ⟨r, h⟩ | ⟨lexer', ae', d', hlen, h⟩
    · exact ⟨r, h fuel⟩
    · rw [h fuel]
      exact ih _ _ _ (by omega)

theorem string_content_loop_total (triple_string interpolate : Bool) (fuel : Nat)
    (lexer : TSLexer) (hfuel : lexer.input.length + 5 ≤ fuel) :
    ∃ r, string_content_loop triple_string interpolate fuel lexer = some r := by
  induction fuel generalizing lexer with
  | zero => omega
  | succ fuel ih =>
    rcases string_content_loop_step triple_string interpolate lexer with
      ⟨r, h⟩ | ⟨lexer', hlen, h⟩
    · exact ⟨r, h fuel (by omega)⟩
    · rw [h fuel (by omega)]
      exact ih _ (by omega)

theorem string_delim_total (fuel : Nat) (lexer : TSLexer) (valid_symbols : TokenType → Bool)
    (hfuel : 4 ≤ fuel) : ∃ r, string_delim fuel lexer valid_symbols = some r := by
  unfold string_delim
  simp only []
  split
  · exact ⟨_, rfl⟩
  · rw [quote_loop_eq _ _ _ (by omega) (by omega)]
    simp only []
    split
    · split <;> exact ⟨_, rfl⟩
    · split <;> exact ⟨_, rfl⟩

theorem string_content_total (fuel : Nat) (lexer : TSLexer)
    (valid_symbols : TokenType → Bool) (hfuel : lexer.input.length + 5 ≤ fuel) :
    ∃ r, string_content fuel lexer valid_symbols = some r := by
  unfold string_content
  simp only []
  split
  · split
    · exact string_delim_total _ _ _ (by omega)
    · split
      · exact ⟨_, rfl⟩
      · rw [quote_loop_eq _ _ _ (by omega) (by omega)]
        simp only []
        split
        · exact ⟨_, rfl⟩
        · split
          · exact ⟨_, rfl⟩
          · refine string_content_loop_total _ _ _ _ ?_
            have hl : lexer.mark_end.input = lexer.input := rfl
            simp only [advanced, List.length_drop, hl]
            omega
  · split
    · exact ⟨_, rfl⟩
    · exact string_content_loop_total _ _ _ _ hfuel

/-- With white space that excludes the end-of-input value and a step budget of the
input's length plus 5, the scan returns. -/
theorem scan_total (iswspace : Nat → Bool) (h0 : iswspace 0 = false) (fuel : Nat)
    (lexer : TSLexer) (valid_symbols : TokenType → Bool)
    (hfuel : lexer.input.length + 5 ≤ fuel) :
    ∃ r, tree_sitter_julia_external_scanner_scan iswspace fuel lexer valid_symbols = some r := by
  unfold tree_sitter_julia_external_scanner_scan
  simp only []
  split
  · exact ⟨_, rfl⟩
  · split
    · exact string_content_total _ _ _ hfuel
    · obtain ⟨l1, hw⟩ := whitespace_loop_total iswspace h0 fuel lexer (by omega)
      have hf := (whitespace_loop_inv _ _ _ _ hw).1
      rw [hw]
      simp only []
      split
      · split
        · exact ⟨_, rfl⟩
        · refine block_comment_loop_total _ _ _ _ ?_
          have h1 := (forward_advance l1 false)
          have h2 := (forward_advance (l1.advance false) false)
          have a := hf.1; have b := hf.2; have c := h1.1; have d := h1.2
          have e := h2.1; have f := h2.2
          omega
      · exact string_delim_total _ _ _ (by omega)

/-! ## C18: termination -/

/-- C18: for every hint set and every finite input, with a step budget of the
input's length plus 5 the scan returns (it does not run out of budget); the
cursor it leaves has moved forward over at most the unread characters (position
plus unread characters is unchanged); and one iteration of each loop (white
space, quote counting, string content, block comment) either returns or advances
over at least one character before the next iteration. (`iswspace` is any
classifier for which the end-of-input value 0 is not white space.) -/
theorem scan_terminates (iswspace : Nat → Bool) (fuel : Nat) (lexer : TSLexer)
    (valid_symbols : TokenType → Bool)
    (h0 : iswspace 0 = false)
    (hfuel : lexer.input.length + 5 ≤ fuel) :
    (∃ b lexer', tree_sitter_julia_external_scanner_scan iswspace fuel lexer valid_symbols =
        some (b, lexer') ∧
      lexer.pos ≤ lexer'.pos ∧
      lexer'.pos + lexer'.input.length = lexer.pos + lexer.input.length ∧
      lexer'.pos - lexer.pos ≤ lexer.input.length) ∧
    (∀ l : TSLexer,
      (∀ f, whitespace_loop iswspace (f + 1) l = some l) ∨
      ((l.advance true).input.length + 1 = l.input.length ∧
        ∀ f, whitespace_loop iswspace (f + 1) l =
          whitespace_loop iswspace f (l.advance true))) ∧
    (∀ (l : TSLexer) (quote_count : Nat),
      (∀ f, quote_loop (f + 1) l quote_count = some (l, quote_count)) ∨
      ((l.advance false).input.length + 1 = l.input.length ∧
        ∀ f, quote_loop (f + 1) l quote_count =
          quote_loop f (l.advance false) (quote_count + 1))) ∧
    (∀ (triple_string interpolate : Bool) (l : TSLexer),
      (∃ r, ∀ f, 4 ≤ f →
        string_content_loop triple_string interpolate (f + 1) l = some r) ∨
      (∃ l', l'.input.length < l.input.length ∧
        ∀ f, 4 ≤ f →
          string_content_loop triple_string interpolate (f + 1) l =
            string_content_loop triple_string interpolate f l')) ∧
    (∀ (l : TSLexer) (after_eq : Bool) (nesting_depth : Nat),
      (∃ r, ∀ f, block_comment_loop (f + 1) l after_eq nesting_depth = some r) ∨
      (∃ l' after_eq' nesting_depth', l'.input.length < l.input.length ∧
        ∀ f, block_comment_loop (f + 1) l after_eq nesting_depth =
          block_comment_loop f l' after_eq' nesting_depth')) := by
  refine ⟨?_, whitespace_loop_step iswspace h0, quote_loop_step, string_content_loop_step,
    block_comment_loop_step⟩
  obtain ⟨⟨b, lexer'⟩, h⟩ := scan_total iswspace h0 fuel lexer valid_symbols hfuel
  obtain ⟨hf, _⟩ := scan_inv _ _ _ _ _ _ h
  refine ⟨b, lexer', h, hf.1, hf.2, ?_⟩
  have := hf.1
  have := hf.2
  omega

/-- C18 witness: the text `#= a`, an unterminated comment; the scan returns
(failure) within a budget of 9, the cursor at the end of the four characters. -/
theorem scan_terminates_witness :
    ∃ b lexer', tree_sitter_julia_external_scanner_scan iswspace_C 9 (start [35, 61, 32, 97])
        (hints [BLOCK_COMMENT]) = some (b, lexer') ∧
      (start [35, 61, 32, 97]).pos ≤ lexer'.pos ∧
      lexer'.pos + lexer'.input.length =
        (start [35, 61, 32, 97]).pos + (start [35, 61, 32, 97]).input.length ∧
      lexer'.pos - (start [35, 61, 32, 97]).pos ≤ (start [35, 61, 32, 97]).input.length :=
  (scan_terminates iswspace_C 9 (start [35, 61, 32, 97]) (hints [BLOCK_COMMENT]) rfl
    (by decide)).1

/-! ## C16: leading white space outside strings -/

theorem whitespace_loop_mono (iswspace : Nat → Bool) (fuel k : Nat) (lexer lexer' : TSLexer)
    (h : whitespace_loop iswspace fuel lexer = some lexer') :
    whitespace_loop iswspace (fuel + k) lexer = some lexer' := by
  induction fuel generalizing lexer with
  | zero => simp [whitespace_loop] at h
  | succ fuel ih =>
    rw [show fuel + 1 + k = (fuel + k) + 1 from by omega]
    rw [whitespace_loop] at h ⊢
    split
    · rename_i hw
      rw [if_pos hw] at h
      exact ih _ h
    · rename_i hw
      rw [if_neg hw] at h
      exact h

theorem whitespace_loop_prefix (iswspace : Nat → Bool) (w : List Nat)
    (hw : ∀ c ∈ w, iswspace c = true) (s : List Nat) (fuel : Nat)
    (p t : Nat) (m : Option Nat) (n : Nat) (sym : TokenType) :
    whitespace_loop iswspace (fuel + w.length) (TSLexer.mk (w ++ s) p t m n sym) =
      whitespace_loop iswspace fuel
        (TSLexer.mk s (p + w.length) (if w = [] then t else p + w.length) m n sym) := by
  induction w generalizing p t with
  | nil => rfl
  | cons c cs ih =>
    have hc := hw c (List.mem_cons_self c cs)
    rw [show fuel + (c :: cs).length = (fuel + cs.length) + 1 from by
      simp only [List.length_cons]; omega, whitespace_loop]
    simp only [List.cons_append, lookahead_cons, hc, if_true, advance_skip_cons]
    rw [ih (fun d hd => hw d (List.mem_cons_of_mem c hd))]
    have hp : p + 1 + cs.length = p + (c :: cs).length := by
      simp only [List.length_cons]; omega
    by_cases hcs : cs = []
    · subst hcs
      simp only [List.length_nil, Nat.add_zero, if_true, List.length_cons, Nat.zero_add,
        reduceCtorEq, if_false]
    · simp only [hcs, if_false, hp, reduceCtorEq]

/-- With no content kind and no `IMMEDIATE_PAREN` valid, the scan depends on the
cursor only through what the white-space loop returns. -/
theorem scan_congr_whitespace (iswspace : Nat → Bool) (fuel : Nat) (l1 l2 : TSLexer)
    (valid_symbols : TokenType → Bool)
    (hc1 : valid_symbols STRING_CONTENT = false)
    (hc2 : valid_symbols STRING_CONTENT_NO_INTERPOLATION = false)
    (hc3 : valid_symbols TRIPLE_STRING_CONTENT = false)
    (hc4 : valid_symbols TRIPLE_STRING_CONTENT_NO_INTERPOLATION = false)
    (hp : valid_symbols IMMEDIATE_PAREN = false)
    (h : whitespace_loop iswspace fuel l1 = whitespace_loop iswspace fuel l2) :
    tree_sitter_julia_external_scanner_scan iswspace fuel l1 valid_symbols =
      tree_sitter_julia_external_scanner_scan iswspace fuel l2 valid_symbols := by
  unfold tree_sitter_julia_external_scanner_scan
  simp only [hp, Bool.false_eq_true, and_false, if_false, hc1, hc2, hc3, hc4, Bool.or_self]
  rw [h]

/-- C16: for every hint set with no content kind and no `IMMEDIATE_PAREN` valid,
every text `w` of white-space characters and every text `s`, with a step budget
of the input's length plus 5: the scan of `w` followed by `s` and the scan of
`s` alone (the cursor placed where `s` begins, the token starting there) both
return, with the same flag and the same final cursor, hence the same kind, the
same token start and the same token end; and that token start is not before the
end of `w`: the characters of `w` were advanced over as skipped. (The cursor is
handed over with the token starting at it; `iswspace` is any classifier for which
the end-of-input value 0 is not white space.) -/
theorem leading_whitespace_is_trivia (iswspace : Nat → Bool) (fuel : Nat) (lexer : TSLexer)
    (valid_symbols : TokenType → Bool) (w s : List Nat)
    (hw : ∀ c ∈ w, iswspace c = true)
    (h0 : iswspace 0 = false)
    (hc1 : valid_symbols STRING_CONTENT = false)
    (hc2 : valid_symbols STRING_CONTENT_NO_INTERPOLATION = false)
    (hc3 : valid_symbols TRIPLE_STRING_CONTENT = false)
    (hc4 : valid_symbols TRIPLE_STRING_CONTENT_NO_INTERPOLATION = false)
    (hp : valid_symbols IMMEDIATE_PAREN = false)
    (hts : lexer.token_start = lexer.pos)
    (hfuel : (w ++ s).length + 5 ≤ fuel) :
    ∃ b lexer',
      tree_sitter_julia_external_scanner_scan iswspace fuel
        { lexer with input := w ++ s } valid_symbols = some (b, lexer') ∧
      tree_sitter_julia_external_scanner_scan iswspace fuel
        { lexer with
          input := s
          pos := lexer.pos + w.length
          token_start := lexer.pos + w.length } valid_symbols = some (b, lexer') ∧
      lexer.pos + w.length ≤ lexer'.token_start := by
  obtain ⟨input, p, t, m, n, sym⟩ := lexer
  simp only at hts
  subst hts
  simp only [List.length_append] at hfuel
  obtain ⟨⟨b, lexer'⟩, hY⟩ := scan_total iswspace h0 fuel
    (TSLexer.mk s (t + w.length) (t + w.length) m n sym) valid_symbols (by
      show s.length + 5 ≤ fuel
      omega)
  refine ⟨b, lexer', ?_, hY, ?_⟩
  · rw [← hY]
    apply scan_congr_whitespace iswspace fuel _ _ valid_symbols hc1 hc2 hc3 hc4 hp
    obtain ⟨f, rfl⟩ : ∃ f, fuel = f + w.length := ⟨fuel - w.length, by omega⟩
    obtain ⟨l1, hl1⟩ := whitespace_loop_total iswspace h0 f
      (TSLexer.mk s (t + w.length) (t + w.length) m n sym) (by
        show s.length + 1 ≤ f
        omega)
    rw [whitespace_loop_mono iswspace f w.length _ _ hl1, whitespace_loop_prefix iswspace w hw]
    have hts : (if w = [] then t else t + w.length) = t + w.length := by
      split
      · rename_i h; rw [h]; rfl
      · rfl
    rw [hts, hl1]
  · exact (scan_inv _ _ _ _ _ _ hY).2 (le_refl _)

/-- C16 witness: two blanks before `"x`, with only `STRING_DELIM` valid: the same
delimiter token as for `"x` alone, starting after the blanks. -/
theorem leading_whitespace_is_trivia_witness :
    ∃ b lexer',
      tree_sitter_julia_external_scanner_scan iswspace_C 9
        (TSLexer.mk [32, 32, 34, 120] 0 0 none 0 BLOCK_COMMENT) (hints [STRING_DELIM]) =
        some (b, lexer') ∧
      tree_sitter_julia_external_scanner_scan iswspace_C 9
        (TSLexer.mk [34, 120] 2 2 none 0 BLOCK_COMMENT) (hints [STRING_DELIM]) =
        some (b, lexer') ∧
      0 + 2 ≤ lexer'.token_start :=
  leading_whitespace_is_trivia iswspace_C 9 (start []) (hints [STRING_DELIM]) [32, 32] [34, 120]
    (by decide) rfl rfl rfl rfl rfl rfl rfl (by decide)

/-! ## C14: a short quote run at the start of triple-quoted content -/

/-- In triple mode with neither delimiter kind valid, `string_content` at a run of
exactly one or two quotes marks the entry position, advances over the run, applies
its `'$'` test and enters its loop. -/
theorem string_content_short_run (fuel r : Nat) (tail : List Nat) (p t : Nat)
    (m : Option Nat) (n : Nat) (s : TokenType) (valid_symbols : TokenType → Bool)
    (hr1 : 1 ≤ r) (hr2 : r ≤ 2) (htail : tail.head? ≠ some 34)
    (htriple : (valid_symbols TRIPLE_STRING_CONTENT ||
      valid_symbols TRIPLE_STRING_CONTENT_NO_INTERPOLATION) = true)
    (hsd : valid_symbols STRING_DELIM = false)
    (htd : valid_symbols TRIPLE_STRING_DELIM = false)
    (hfuel : 4 ≤ fuel) :
    string_content fuel (TSLexer.mk (List.replicate r 34 ++ tail) p t m n s) valid_symbols =
      if (valid_symbols STRING_CONTENT || valid_symbols TRIPLE_STRING_CONTENT) = true ∧
          (TSLexer.mk tail (p + r) t (some p) (n + 1) s).lookahead = 36 then
        some (false, TSLexer.mk tail (p + r) t (some p) (n + 1) s)
      else
        string_content_loop true
          (valid_symbols STRING_CONTENT || valid_symbols TRIPLE_STRING_CONTENT) fuel
          (TSLexer.mk tail (p + r) t (some p) (n + 1) s) := by
  have hq : quote_run 3 (List.replicate r 34 ++ tail) = r := by
    rw [quote_run_replicate _ _ _ htail]; omega
  have hdrop : List.drop r (List.replicate r 34 ++ tail) = tail := by
    rw [List.drop_append_of_le_length (by simp)]
    simp
  unfold string_content
  simp only [lookahead_replicate_quote r tail p t m n s hr1, if_true, hsd, htd, Bool.or_self,
    Bool.false_eq_true, if_false, htriple, Bool.not_true, mark_end_mk]
  rw [quote_loop_eq _ _ _ (by omega) (by omega)]
  simp only [Nat.sub_zero, Nat.zero_add, hq, advanced, hdrop,
    show r ≠ 3 from by omega, if_false]

/-- Where the run is not followed at once by an interpolation: for every hint set
with a triple content kind valid and neither delimiter kind nor `IMMEDIATE_PAREN`
valid, every input that starts with a run of exactly one or two `'"'` not
followed by a `'$'` that an interpolating kind (`STRING_CONTENT` or
`TRIPLE_STRING_CONTENT`) makes significant, and a step budget of the input's
length plus 5, the scan succeeds with a triple content kind, the token starts at
the entry position and its last mark-end lies at or after the end of the run. -/
theorem short_run_is_triple_content (iswspace : Nat → Bool) (fuel : Nat) (lexer : TSLexer)
    (valid_symbols : TokenType → Bool) (r : Nat) (tail : List Nat)
    (hr1 : 1 ≤ r) (hr2 : r ≤ 2) (htail : tail.head? ≠ some 34)
    (htriple : valid_symbols TRIPLE_STRING_CONTENT = true ∨
      valid_symbols TRIPLE_STRING_CONTENT_NO_INTERPOLATION = true)
    (hsd : valid_symbols STRING_DELIM = false)
    (htd : valid_symbols TRIPLE_STRING_DELIM = false)
    (hp : valid_symbols IMMEDIATE_PAREN = false)
    (hno : ¬ ((valid_symbols STRING_CONTENT = true ∨
      valid_symbols TRIPLE_STRING_CONTENT = true) ∧ tail.head? = some 36))
    (hin : lexer.input = List.replicate r 34 ++ tail)
    (hfuel : lexer.input.length + 5 ≤ fuel) :
    ∃ lexer', tree_sitter_julia_external_scanner_scan iswspace fuel lexer valid_symbols =
        some (true, lexer') ∧
      (lexer'.result_symbol = TRIPLE_STRING_CONTENT ∨
        lexer'.result_symbol = TRIPLE_STRING_CONTENT_NO_INTERPOLATION) ∧
      lexer'.token_start = lexer.token_start ∧
      ∃ q, lexer'.mark = some q ∧ lexer.pos + r ≤ q ∧ lexer'.token_end = q := by
  obtain ⟨input, p, t, m, n, s⟩ := lexer
  simp only at hin
  subst hin
  simp only [List.length_append, List.length_replicate] at hfuel
  have hany : (valid_symbols STRING_CONTENT || valid_symbols STRING_CONTENT_NO_INTERPOLATION ||
      valid_symbols TRIPLE_STRING_CONTENT ||
      valid_symbols TRIPLE_STRING_CONTENT_NO_INTERPOLATION) = true := by
    rcases htriple with h | h <;> simp [h]
  have hts : (valid_symbols TRIPLE_STRING_CONTENT ||
      valid_symbols TRIPLE_STRING_CONTENT_NO_INTERPOLATION) = true := by
    rcases htriple with h | h <;> simp [h]
  have hentry := string_content_short_run fuel r tail p t m n s valid_symbols hr1 hr2 htail
    hts hsd htd (by omega)
  have hcond : ((valid_symbols STRING_CONTENT || valid_symbols TRIPLE_STRING_CONTENT) = true ∧
      (TSLexer.mk tail (p + r) t (some p) (n + 1) s).lookahead = 36) →
      ((valid_symbols STRING_CONTENT = true ∨ valid_symbols TRIPLE_STRING_CONTENT = true) ∧
        tail.head? = some 36) := by
    cases tail with
    | nil => simp
    | cons c cs => simp
  rw [scan_content iswspace fuel _ valid_symbols hp hany, hentry]
  rw [if_neg (fun h => hno (hcond h))]
  obtain ⟨⟨b, lexer'⟩, hl⟩ := string_content_loop_total true
    (valid_symbols STRING_CONTENT || valid_symbols TRIPLE_STRING_CONTENT) fuel
    (TSLexer.mk tail (p + r) t (some p) (n + 1) s) (by
      show tail.length + 5 ≤ fuel
      omega)
  obtain ⟨hb, hsym⟩ := string_content_loop_emits _ _ _ _ _ _ hl
  obtain ⟨_, htok, hmark⟩ := string_content_loop_inv _ _ _ _ _ _ hl
  subst hb
  refine ⟨lexer', hl, ?_, htok, ?_⟩
  · rw [hsym]
    cases (valid_symbols STRING_CONTENT || valid_symbols TRIPLE_STRING_CONTENT)
    · exact Or.inr rfl
    · exact Or.inl rfl
  · rcases hmark with ⟨hf, _⟩ | ⟨q, hq1, hq2, _, _⟩
    · exact absurd hf (by decide)
    · exact ⟨q, hq1, hq2, by unfold TSLexer.token_end; rw [hq1]; rfl⟩

/-- C14 (the code departs from it): with `TRIPLE_STRING_CONTENT` the only valid
kind, the scan of `"$` (a run of one quote, then an interpolation) returns
failure after advancing over the quote, and the scan of `""$` does the same after
two quotes: the `'$'` test of line 109, meant for empty content, runs after lines
92-98 have consumed the quotes as content. The loop's own path keeps such quotes:
`a"$` succeeds with the content `a"` and `"a$` with the content `"a`, each marked
right before the `'$'`. -/
theorem short_run_then_dollar_fails :
    tree_sitter_julia_external_scanner_scan iswspace_C 7 (start [34, 36])
        (hints [TRIPLE_STRING_CONTENT]) =
      some (false, TSLexer.mk [36] 1 0 (some 0) 1 BLOCK_COMMENT) ∧
    tree_sitter_julia_external_scanner_scan iswspace_C 8 (start [34, 34, 36])
        (hints [TRIPLE_STRING_CONTENT]) =
      some (false, TSLexer.mk [36] 2 0 (some 0) 1 BLOCK_COMMENT) ∧
    tree_sitter_julia_external_scanner_scan iswspace_C 8 (start [97, 34, 36])
        (hints [TRIPLE_STRING_CONTENT]) =
      some (true, TSLexer.mk [36] 2 0 (some 2) 2 TRIPLE_STRING_CONTENT) ∧
    tree_sitter_julia_external_scanner_scan iswspace_C 8 (start [34, 97, 36])
        (hints [TRIPLE_STRING_CONTENT]) =
      some (true, TSLexer.mk [36] 2 0 (some 2) 2 TRIPLE_STRING_CONTENT) :=
  ⟨rfl, rfl, rfl, rfl⟩

/-! ## C19: a content token is not empty -/

/-- A successful return of the content loop from a cursor without a mark puts the
token end at or after that cursor. -/
theorem string_content_loop_token_end (triple_string interpolate : Bool) (fuel : Nat)
    (lexer lexer' : TSLexer) (b : Bool)
    (h : string_content_loop triple_string interpolate fuel lexer = some (b, lexer'))
    (hm : lexer.mark = none ∨ triple_string = true) :
    lexer.pos ≤ lexer'.token_end := by
  obtain ⟨hf, _, hmark⟩ := string_content_loop_inv _ _ _ _ _ _ h
  rcases hmark with ⟨hts, h1, _⟩ | ⟨q, h1, h2, _, _⟩
  · rcases hm with hm | hm
    · unfold TSLexer.token_end
      rw [h1, hm]
      exact hf.1
    · rw [hm] at hts
      exact absurd hts (by decide)
  · unfold TSLexer.token_end
    rw [h1]
    exact h2

/-- The first iteration of the content loop at a character that is neither a
quote, nor the end-of-input value, nor a `'$'` that ends content: the token end is
at least one character past the cursor. -/
theorem string_content_loop_first (triple_string interpolate : Bool) (fuel : Nat)
    (lexer lexer' : TSLexer) (b : Bool)
    (h : string_content_loop triple_string interpolate fuel lexer = some (b, lexer'))
    (h0 : lexer.lookahead ≠ 0) (h34 : lexer.lookahead ≠ 34)
    (h36 : ¬ (interpolate = true ∧ lexer.lookahead = 36))
    (hm : lexer.mark = none) :
    lexer.pos + 1 ≤ lexer'.token_end := by
  cases fuel with
  | zero => simp [string_content_loop] at h
  | succ fuel =>
    have hadv := (advance_of_lookahead_ne_zero lexer false h0).1
    have hmk : (lexer.advance false).mark = none := (advance_false_frame lexer).1.trans hm
    rw [string_content_loop, if_neg h34] at h
    by_cases hd : lexer.lookahead = 36
    · have hi : interpolate = false := by
        cases interpolate
        · rfl
        · exact absurd ⟨rfl, hd⟩ h36
      subst hi
      rw [if_pos hd] at h
      simp only [Bool.not_false, if_true] at h
      have := string_content_loop_token_end _ _ _ _ _ _ h (Or.inl hmk)
      omega
    · rw [if_neg hd] at h
      by_cases h92 : lexer.lookahead = 92
      · rw [if_pos h92] at h
        simp only [] at h
        split at h
        · simp only [Option.some.injEq, Prod.mk.injEq] at h
          obtain ⟨_, rfl⟩ := h
          show lexer.pos + 1 ≤ (lexer.advance false).pos
          omega
        · have hf2 := (forward_advance (lexer.advance false) false).1
          have hmk2 : ((lexer.advance false).advance false).mark = none :=
            (advance_false_frame _).1.trans hmk
          have := string_content_loop_token_end _ _ _ _ _ _ h (Or.inl hmk2)
          omega
      · rw [if_neg h92, if_neg h0] at h
        have := string_content_loop_token_end _ _ _ _ _ _ h (Or.inl hmk)
        omega

theorem string_content_token_not_empty (fuel : Nat) (lexer lexer' : TSLexer)
    (valid_symbols : TokenType → Bool)
    (h0 : lexer.lookahead ≠ 0) (hm : lexer.mark = none)
    (h : string_content fuel lexer valid_symbols = some (true, lexer'))
    (hk : lexer'.result_symbol ≠ STRING_DELIM ∧ lexer'.result_symbol ≠ TRIPLE_STRING_DELIM) :
    lexer.pos + 1 ≤ lexer'.token_end := by
  unfold string_content at h
  simp only [] at h
  split at h
  · rename_i h34
    split at h
    · rcases string_delim_emits_delim _ _ _ _ h with hd | hd
      · exact absurd hd hk.1
      · exact absurd hd hk.2
    · split at h
      · simp at h
      · rename_i hts
        split at h
        · simp at h
        · rename_i l2 qc hq
          have hpos := (quote_loop_inv _ _ _ _ _ hq).2.2.2.2.2 ⟨by decide, h34⟩
          split at h
          · simp at h
          · split at h
            · simp at h
            · have hts' : (valid_symbols TRIPLE_STRING_CONTENT ||
                  valid_symbols TRIPLE_STRING_CONTENT_NO_INTERPOLATION) = true := by
                cases hx : (valid_symbols TRIPLE_STRING_CONTENT ||
                  valid_symbols TRIPLE_STRING_CONTENT_NO_INTERPOLATION)
                · rw [hx] at hts
                  exact absurd rfl hts
                · rfl
              have := string_content_loop_token_end _ _ _ _ _ _ h (Or.inr hts')
              have hp : lexer.mark_end.pos = lexer.pos := rfl
              omega
  · rename_i h34
    split at h
    · simp at h
    · rename_i h36
      exact string_content_loop_first _ _ _ _ _ _ h h0 h34 h36 hm

theorem quote_run_three (cap : Nat) (rest : List Nat) :
    quote_run (cap + 3) (34 :: 34 :: 34 :: rest) = quote_run cap rest + 3 := by
  rw [show cap + 3 = cap + 1 + 1 + 1 from rfl, quote_run_cons_quote, quote_run_cons_quote,
    quote_run_cons_quote]

/-- C19 (as stated, refuted): positioned at a run of three quotes in triple mode
with `TRIPLE_STRING_DELIM` valid as well, the scan does not fail: it hands the
position to `string_delim` and succeeds with `TRIPLE_STRING_DELIM`. -/
theorem content_token_not_empty_counterexample :
    tree_sitter_julia_external_scanner_scan iswspace_C 4
        (TSLexer.mk [34, 34, 34] 4 4 none 0 TRIPLE_STRING_CONTENT)
        (hints [TRIPLE_STRING_CONTENT, TRIPLE_STRING_DELIM]) =
      some (true, TSLexer.mk [] 7 4 (some 7) 2 TRIPLE_STRING_DELIM) :=
  rfl

/-- C19 (amended): for every hint set and every input whose lookahead at entry is
not the end-of-input value 0, scanned from a cursor without a mark: if the scan
succeeds with one of the four content kinds, the token starts at the entry
position and its end (last mark, or the cursor when mark-end was not called) is at
least one character further. Positioned at a run of three quotes in triple mode
(budget at least 4), the scan emits no content: with neither delimiter kind valid
it returns failure; with `TRIPLE_STRING_DELIM` valid it succeeds with that
delimiter; with only `STRING_DELIM` valid it returns failure. -/
theorem content_token_not_empty (iswspace : Nat → Bool) (fuel : Nat) (lexer : TSLexer)
    (valid_symbols : TokenType → Bool)
    (h0 : lexer.lookahead ≠ 0) (hm : lexer.mark = none) :
    (∀ lexer', tree_sitter_julia_external_scanner_scan iswspace fuel lexer valid_symbols =
        some (true, lexer') →
      lexer'.result_symbol ∈ [STRING_CONTENT, STRING_CONTENT_NO_INTERPOLATION,
        TRIPLE_STRING_CONTENT, TRIPLE_STRING_CONTENT_NO_INTERPOLATION] →
      lexer'.token_start = lexer.token_start ∧ lexer.pos + 1 ≤ lexer'.token_end) ∧
    (∀ rest, lexer.input = 34 :: 34 :: 34 :: rest →
      (valid_symbols TRIPLE_STRING_CONTENT = true ∨
        valid_symbols TRIPLE_STRING_CONTENT_NO_INTERPOLATION = true) →
      4 ≤ fuel →
      (valid_symbols STRING_DELIM = false → valid_symbols TRIPLE_STRING_DELIM = false →
        tree_sitter_julia_external_scanner_scan iswspace fuel lexer valid_symbols =
          some (false, { lexer with
            input := rest
            pos := lexer.pos + 3
            mark := some lexer.pos
            mark_calls := lexer.mark_calls + 1 })) ∧
      (valid_symbols TRIPLE_STRING_DELIM = true →
        tree_sitter_julia_external_scanner_scan iswspace fuel lexer valid_symbols =
          some (true, { lexer with
            input := rest
            pos := lexer.pos + 3
            mark := some (lexer.pos + 3)
            mark_calls := lexer.mark_calls + 2
            result_symbol := TRIPLE_STRING_DELIM })) ∧
      (valid_symbols STRING_DELIM = true → valid_symbols TRIPLE_STRING_DELIM = false →
        tree_sitter_julia_external_scanner_scan iswspace fuel lexer valid_symbols =
          some (false, { lexer with
            input := rest
            pos := lexer.pos + 3
            mark := some (lexer.pos + 1)
            mark_calls := lexer.mark_calls + 1 }))) := by
  constructor
  · intro lexer' h hk
    have hk' : lexer'.result_symbol ≠ STRING_DELIM ∧
        lexer'.result_symbol ≠ TRIPLE_STRING_DELIM ∧
        lexer'.result_symbol ≠ IMMEDIATE_PAREN ∧ lexer'.result_symbol ≠ BLOCK_COMMENT := by
      simp only [List.mem_cons, List.mem_singleton, List.not_mem_nil, or_false] at hk
      rcases hk with hk | hk | hk | hk <;> rw [hk] <;> decide
    unfold tree_sitter_julia_external_scanner_scan at h
    simp only [] at h
    split at h
    · simp only [Option.some.injEq, Prod.mk.injEq, true_and] at h
      subst h
      exact absurd rfl hk'.2.2.1
    · split at h
      · exact ⟨(string_content_inv _ _ _ _ _ h).2,
          string_content_token_not_empty _ _ _ _ h0 hm h ⟨hk'.1, hk'.2.1⟩⟩
      · split at h
        · simp at h
        · split at h
          · split at h
            · simp at h
            · exact absurd (block_comment_loop_emits _ _ _ _ _ h) hk'.2.2.2
          · rcases string_delim_emits_delim _ _ _ _ h with hd | hd
            · exact absurd hd hk'.1
            · exact absurd hd hk'.2.1
  · intro rest hin htriple hfuel
    obtain ⟨input, p, t, m, n, s⟩ := lexer
    simp only at hin
    subst hin
    have hany : (valid_symbols STRING_CONTENT || valid_symbols STRING_CONTENT_NO_INTERPOLATION ||
        valid_symbols TRIPLE_STRING_CONTENT ||
        valid_symbols TRIPLE_STRING_CONTENT_NO_INTERPOLATION) = true := by
      rcases htriple with h | h <;> simp [h]
    have hts : (valid_symbols TRIPLE_STRING_CONTENT ||
        valid_symbols TRIPLE_STRING_CONTENT_NO_INTERPOLATION) = true := by
      rcases htriple with h | h <;> simp [h]
    rw [scan_content_no_paren iswspace fuel _ valid_symbols
      (by rw [lookahead_cons]; exact fun h => absurd h.1 (by decide)) hany]
    have hq2 : quote_run 2 (34 :: 34 :: rest) = 2 := by
      rw [show (2 : Nat) = 0 + 1 + 1 from rfl, quote_run_cons_quote, quote_run_cons_quote,
        quote_run_zero]
    refine ⟨fun hsd htd => ?_, fun htd => ?_, fun hsd htd => ?_⟩
    · unfold string_content
      simp only [lookahead_cons, if_true, hsd, htd, Bool.or_self, Bool.false_eq_true, if_false,
        hts, Bool.not_true, mark_end_mk]
      rw [quote_loop_eq _ _ _ (by omega) (by omega)]
      have hq3 : quote_run (3 - 0) (34 :: 34 :: 34 :: rest) = 3 := by
        rw [show 3 - 0 = 0 + 3 from rfl, quote_run_three, quote_run_zero]
      simp only [hq3, advanced, Nat.zero_add, if_true, List.drop_succ_cons, List.drop_zero]
    · rw [string_content_at_quote_delim _ _ _ (lookahead_cons _ _ _ _ _ _ _) (by simp [htd]),
        string_delim_at_quote _ _ _ _ _ _ _ _ (by omega), hq2]
      simp only [Nat.lt_irrefl, if_false, htd, if_true, List.drop_succ_cons, List.drop_zero]
    · rw [string_content_at_quote_delim _ _ _ (lookahead_cons _ _ _ _ _ _ _) (by simp [hsd]),
        string_delim_at_quote _ _ _ _ _ _ _ _ (by omega), hq2]
      simp only [Nat.lt_irrefl, if_false, htd, Bool.false_eq_true, List.drop_succ_cons,
        List.drop_zero]

/-- C19 witness: `a"""` in triple mode: the content token `a` is one character
long. -/
theorem content_token_not_empty_witness :
    (TSLexer.mk [] 8 4 (some 5) 1 TRIPLE_STRING_CONTENT).token_start = 4 ∧
    4 + 1 ≤ (TSLexer.mk [] 8 4 (some 5) 1 TRIPLE_STRING_CONTENT).token_end :=
  (content_token_not_empty iswspace_C 9
    (TSLexer.mk [97, 34, 34, 34] 4 4 none 0 TRIPLE_STRING_DELIM)
    (hints [TRIPLE_STRING_CONTENT]) (by decide) rfl).1
    (TSLexer.mk [] 8 4 (some 5) 1 TRIPLE_STRING_CONTENT) rfl (by decide)

end JuliaScanner
